import Mathlib

/-!
Shallow embedding of the `eodms_dds` resilient bulk-retrieval engine
(`src/eodms_dds/dds/base.py`, `items.py`, `downloads.py`, `rcm_db.py`)
together with proofs of the specification claims about it.

Conventions of the embedding:
* Python floats for delays are modelled as rationals (`ℚ`).
* `random.random()` is a parameter `u` with `0 ≤ u < 1`.
* HTTP responses are explicit records; the network is an oracle
  `Nat → ...` giving the behaviour of each attempt.
* The filesystem is a total map from (abstract) paths to an optional
  byte string; bytes are `Nat`s.
-/

namespace EodmsDds

/-! ### base.py : `_sleep_for_retry` -/

/-- An HTTP response as seen by `_sleep_for_retry` / `_request_with_retries`:
`getattr(resp, "status_code", None)` gives an optional status code, and a 429
may carry a `Retry-After` header.  `retryAfter = none` models an absent or
empty (falsy) header; `some none` a present header that fails `float(...)`;
`some (some q)` a header parsing to the number `q` of seconds. -/
structure Resp where
  statusCode : Option Nat
  retryAfter : Option (Option ℚ)
deriving Repr

/-- `_sleep_for_retry`, pre-jitter part: `Retry-After` seconds if the response
is a 429 carrying a numeric header, else `min(max_backoff, backoff_factor *
2 ** (attempt - 1))`. -/
def sleep_for_retry_base (resp : Option Resp) (attempt : ℕ)
    (backoff_factor max_backoff : ℚ) : ℚ :=
  let fromHeader : Option ℚ :=
    match resp with
    | some r =>
      if r.statusCode = some 429 then
        match r.retryAfter with
        | some (some q) => some q
        | _ => none
      else none
    | none => none
  match fromHeader with
  | some q => q
  | none => min max_backoff (backoff_factor * 2 ^ (attempt - 1))

/-- `_sleep_for_retry`, the delay actually slept: the pre-jitter delay times
`0.5 + 0.5 * random.random()`. -/
def sleep_for_retry_slept (resp : Option Resp) (attempt : ℕ)
    (backoff_factor max_backoff u : ℚ) : ℚ :=
  sleep_for_retry_base resp attempt backoff_factor max_backoff * (1/2 + 1/2 * u)

/-! ### base.py : `_request_with_retries` -/

/-- One attempt of `self.aaa.prepare_request`.  The identity collaborator is
external to `src/`; following the spec it either returns a response with a
status code and headers (`ok`) or raises a transport-level exception
(`error`), which `_request_with_retries` does not catch. -/
abbrev ReqAttempt := Except Unit Resp

/-- `code in (200, 202)`. -/
def req_success (c : Option Nat) : Bool :=
  c = some 200 ∨ c = some 202

/-- `code == 429 or (code and 500 <= code < 600)` (note Python truthiness of
`code`: `None` and `0` are falsy). -/
def req_retryable (c : Option Nat) : Bool :=
  c = some 429 ||
    (match c with
     | some n => decide (n ≠ 0) && decide (500 ≤ n) && decide (n < 600)
     | none => false)

/-- Result of `_request_with_retries`: the returned value (`Except.error` if a
transport exception escaped, otherwise the returned response, which is `none`
only when the loop body never ran), the index of the last attempt issued, and
the number of backoff sleeps performed. -/
structure ReqRes where
  result : Except Unit (Option Resp)
  lastAttempt : ℕ
  sleeps : ℕ
deriving Repr

/-- The retry loop of `_request_with_retries`, from attempt number `attempt`
with `sleeps` sleeps already done.  Returns on 200/202, retries (with a sleep)
on 429/5xx while attempts remain, and otherwise returns the last response. -/
def request_loop (oracle : ℕ → ReqAttempt) (max_retries attempt sleeps : ℕ) :
    ReqRes :=
  if h : attempt ≤ max_retries then
    match oracle attempt with
    | .error e => ⟨.error e, attempt, sleeps⟩
    | .ok r =>
      if req_success r.statusCode then ⟨.ok (some r), attempt, sleeps⟩
      else if req_retryable r.statusCode ∧ attempt < max_retries then
        request_loop oracle max_retries (attempt + 1) (sleeps + 1)
      else ⟨.ok (some r), attempt, sleeps⟩
  else ⟨.ok none, attempt - 1, sleeps⟩
termination_by max_retries + 1 - attempt

/-- `_request_with_retries(url, headers, max_retries, ...)`: run the loop for
attempts `1 .. max_retries`. -/
def request_with_retries (oracle : ℕ → ReqAttempt) (max_retries : ℕ) : ReqRes :=
  request_loop oracle max_retries 1 0

/-! ### base.py : `_parse_expected_size` -/

/-- `_parse_expected_size(url, resp)`: the parsed `?size=` query parameter if
present (`sizeParam`), else the response's parsed `Content-Length` when a
response is supplied.  `resp = none` mirrors passing `None`; the inner
`Option Nat` is the parsed `Content-Length` header. -/
def parse_expected_size (sizeParam : Option ℕ) (resp : Option (Option ℕ)) :
    Option ℕ :=
  match sizeParam with
  | some n => some n
  | none =>
    match resp with
    | some cl => cl
    | none => none

/-! ### items.py : `get_item`, `get_items`, `get_items_from_results` -/

/-- The JSON body returned by the catalog for one item, as far as bucketing is
concerned: `data.get("status")`. -/
structure ItemRec where
  status : Option String
deriving Repr, DecidableEq

/-- A structurally typed query-result object (`QueryResultLike`): an optional
`uuid` and the `query_data` mapping.  Values are modelled as strings; a key
that is absent from the association list models both a missing key and a
falsy (`None`/empty) value would be the empty string. -/
structure QueryResultLike where
  uuid : Option String
  query_data : List (String × String)
deriving Repr

/-- `qd.get(k)` followed by Python truthiness: `none` for a missing key or a
falsy (empty) value. -/
def lookupTruthy (qd : List (String × String)) (k : String) : Option String :=
  match qd.lookup k with
  | some v => if v = "" then none else some v
  | none => none

/-- First key of `ks` with a truthy value in `qd` (the `for k in (...)` loops
of `_resolve_ids`). -/
def firstTruthy (qd : List (String × String)) : List String → Option String
  | [] => none
  | k :: ks =>
    match lookupTruthy qd k with
    | some v => some v
    | none => firstTruthy qd ks

/-- `_resolve_ids(qr)`: collection id from the first of four candidate keys,
archive id from the first of four candidate keys with the object's `uuid` as
fallback; `none` unless both resolve to truthy values. -/
def resolve_ids (qr : QueryResultLike) : Option (String × String) :=
  let coll := firstTruthy qr.query_data
    ["collectionId", "collectionID", "collection", "collection_name"]
  let arch0 := firstTruthy qr.query_data
    ["archiveId", "datasetId", "recordId", "featureId"]
  let arch : Option String :=
    match arch0 with
    | some a => some a
    | none =>
      match qr.uuid with
      | some u => if u = "" then none else some u
      | none => none
  match coll, arch with
  | some c, some a => some (c, a)
  | _, _ => none

/-- The three outcome buckets returned by the poller. -/
structure Buckets where
  ready : List ItemRec
  queued : List ItemRec
  unknown : List ItemRec
deriving Repr, DecidableEq

/-- Append one successfully fetched record to the bucket selected by its
`status` field: `Available → ready`, `Queued → queued`, else `unknown`. -/
def bucketAdd (b : Buckets) (d : ItemRec) : Buckets :=
  if d.status = some "Available" then { b with ready := b.ready ++ [d] }
  else if d.status = some "Queued" then { b with queued := b.queued ++ [d] }
  else { b with unknown := b.unknown ++ [d] }

/-- One input to `get_items_from_results`, packaged with the network's answer
for it: `fetch` is what `get_item(collection_id, archive_id)` returns for the
resolved identifier pair (`none` = fetch failure). -/
structure PollInput where
  qr : QueryResultLike
  fetch : Option ItemRec

/-- Loop body of `get_items_from_results`: unresolvable identifiers and fetch
failures are skipped (warned about, contributing to no bucket); otherwise the
record is bucketed by status. -/
def pollStep (b : Buckets) (x : PollInput) : Buckets :=
  match resolve_ids x.qr with
  | none => b
  | some _ =>
    match x.fetch with
    | none => b
    | some d => bucketAdd b d

/-- `get_items_from_results(results, ...)` (the throttle and progress bar do
not affect the returned buckets). -/
def get_items_from_results (xs : List PollInput) : Buckets :=
  xs.foldl pollStep ⟨[], [], []⟩

/-- Loop body of `get_items`: entries carry their identifiers directly, so
only a fetch failure drops an item. -/
def itemStep (b : Buckets) (x : Option ItemRec) : Buckets :=
  match x with
  | none => b
  | some d => bucketAdd b d

/-- `get_items(entries, ...)`: each entry is represented by the fetch outcome
`get_item(e["collectionId"], e["archiveId"])` for it. -/
def get_items (xs : List (Option ItemRec)) : Buckets :=
  xs.foldl itemStep ⟨[], [], []⟩

/-! ### rcm_db.py : schema gate -/

/-- `_EXPECTED_QUERY_COLS`. -/
def expected_query_cols : List String :=
  ["id", "constellation", "geometry_wkt", "start_date", "end_date",
   "parameters", "created_at"]

/-- `_EXPECTED_DL_COLS` (note the source spells the acquisition-time column
`acqusition_time`). -/
def expected_dl_cols : List String :=
  ["product_id", "query_id", "constellation", "sensor_mode", "product_type",
   "processing_level", "status", "acqusition_time", "publication_time",
   "latency", "coordinates", "latitude", "longitude", "name", "quicklook",
   "file_path", "file_size_mb", "checksum", "created_at", "updated_at"]

/-- What `OptionalRCMDB.__init__` can observe about the store at `db_path`:
no/falsy path, a missing file, a failing `sqlite3.connect`, or an opened
connection whose schema maps each table name to its column list
(`PRAGMA table_info` of a missing table yields no columns). -/
inductive StoreAccess where
  | noPath : StoreAccess
  | missingFile : StoreAccess
  | connectFail : StoreAccess
  | opened (tables : String → List String) : StoreAccess

/-- `_subset_present(conn, table, need)`. -/
def subset_present (tables : String → List String) (table : String)
    (need : List String) : Bool :=
  need.all (fun c => c ∈ tables table)

/-- The `enabled` flag set by `OptionalRCMDB.__init__`: true exactly when the
store opened and both expected column sets are subsets of the actual ones. -/
def rcmdb_enabled : StoreAccess → Bool
  | .opened tables =>
    subset_present tables "queries" expected_query_cols &&
      subset_present tables "downloads" expected_dl_cols
  | _ => false

/-! ### rcm_db.py : rows and upserts of the `downloads` table -/

/-- A value that may be a `datetime` or a string, as accepted by `to_iso`
(`db_utils.py`); datetimes are modelled by their integer timestamp in
seconds. -/
inductive TimeV where
  | txt (s : String) : TimeV
  | ts (t : ℤ) : TimeV
deriving Repr, DecidableEq

/-- Stand-in for `datetime.isoformat` on the timestamp model. -/
def isoOfTs (t : ℤ) : String := "iso:" ++ toString t

/-- `to_iso(x)` from `db_utils.py`: `None ↦ None`, strings pass through,
datetimes are rendered; the model has no other types. -/
def to_iso : Option TimeV → Option String
  | none => none
  | some (.txt s) => some s
  | some (.ts t) => some (isoOfTs t)

/-- `json_dumps_safe` applied to the optional coordinates value
(`json.dumps(None) = "null"`). -/
def json_dumps_safe : Option String → String
  | none => "null"
  | some s => s

/-- The metadata dict handed to the mark operations (`meta.get(...)` fields
used by them). -/
structure Meta where
  constellation : Option String
  sensor_mode : Option String
  product_type : Option String
  processing_level : Option String
  acquisition_time : Option TimeV
  publication_time : Option TimeV
  coordinates : Option String
  latitude : Option String
  longitude : Option String
  title : Option String
  quicklook : Option String
deriving Repr, DecidableEq

/-- One row of the `downloads` table (all twenty columns). -/
structure DlRow where
  product_id : String
  query_id : Option ℤ
  constellation : String
  sensor_mode : Option String
  product_type : Option String
  processing_level : Option String
  status : String
  acqusition_time : Option String
  publication_time : Option String
  latency : Option ℚ
  coordinates : String
  latitude : Option String
  longitude : Option String
  name : Option String
  quicklook : Option String
  file_path : String
  file_size_mb : Option ℚ
  checksum : Option String
  created_at : ℕ
  updated_at : ℕ
deriving Repr, DecidableEq

/-- `INSERT ... ON CONFLICT(product_id) DO UPDATE`: the `downloads` table has
`product_id UNIQUE`, so if a row with this `product_id` exists it is updated
in place (`upd`), otherwise the fresh row is inserted. -/
def upsert (t : List DlRow) (pid : String) (fresh : DlRow)
    (upd : DlRow → DlRow) : List DlRow :=
  if t.any (fun r => r.product_id == pid) then
    t.map (fun r => if r.product_id == pid then upd r else r)
  else t ++ [fresh]

/-- The VALUES tuple of `mark_in_progress` as a fresh row (`now` models
`datetime('now')`). -/
def inProgressRow (now : ℕ) (product_id : String) (query_id : Option ℤ)
    (meta : Meta) (file_path : String) : DlRow where
  product_id := product_id
  query_id := query_id
  constellation := meta.constellation.getD "RCM"
  sensor_mode := meta.sensor_mode
  product_type := meta.product_type
  processing_level := meta.processing_level
  status := "in_progress"
  acqusition_time := to_iso meta.acquisition_time
  publication_time := to_iso meta.publication_time
  latency := none
  coordinates := json_dumps_safe meta.coordinates
  latitude := meta.latitude
  longitude := meta.longitude
  name := meta.title
  quicklook := meta.quicklook
  file_path := file_path
  file_size_mb := none
  checksum := none
  created_at := now
  updated_at := now

/-- `mark_in_progress` on the `downloads` table: upsert; on conflict only
`status`, `file_path` and `updated_at` are SET. -/
def mark_in_progress (now : ℕ) (product_id : String) (query_id : Option ℤ)
    (meta : Meta) (file_path : String) (t : List DlRow) : List DlRow :=
  upsert t product_id (inProgressRow now product_id query_id meta file_path)
    (fun r =>
      { r with status := "in_progress", file_path := file_path,
               updated_at := now })

/-- The latency computed by `mark_success`: `(pub - acq).total_seconds()/60`
when both metadata timestamps are datetimes, else `None`. -/
def successLatency (meta : Meta) : Option ℚ :=
  match meta.acquisition_time, meta.publication_time with
  | some (.ts a), some (.ts p) => some ((p - a : ℤ) / 60)
  | _, _ => none

/-- The VALUES tuple of `mark_success` as a fresh row.  `size_mb` and
`checksum` model what `Path(final_path).stat()` / `md5_file` observe on
disk. -/
def successRow (now : ℕ) (product_id : String) (query_id : Option ℤ)
    (final_path : String) (meta : Meta) (size_mb : Option ℚ)
    (chksum : Option String) : DlRow where
  product_id := product_id
  query_id := query_id
  constellation := meta.constellation.getD "RCM"
  sensor_mode := meta.sensor_mode
  product_type := meta.product_type
  processing_level := meta.processing_level
  status := "completed"
  acqusition_time := to_iso meta.acquisition_time
  publication_time := to_iso meta.publication_time
  latency := successLatency meta
  coordinates := json_dumps_safe meta.coordinates
  latitude := meta.latitude
  longitude := meta.longitude
  name := meta.title
  quicklook := meta.quicklook
  file_path := final_path
  file_size_mb := size_mb
  checksum := chksum
  created_at := now
  updated_at := now

/-- `mark_success` on the `downloads` table: upsert; on conflict SETs
`status='completed'`, `file_path`, `file_size_mb`, `checksum`,
`publication_time`, `acqusition_time`, `latency` and `updated_at`. -/
def mark_success (now : ℕ) (product_id : String) (query_id : Option ℤ)
    (final_path : String) (meta : Meta) (size_mb : Option ℚ)
    (chksum : Option String) (t : List DlRow) : List DlRow :=
  upsert t product_id
    (successRow now product_id query_id final_path meta size_mb chksum)
    (fun r =>
      { r with status := "completed", file_path := final_path,
               file_size_mb := size_mb, checksum := chksum,
               publication_time := to_iso meta.publication_time,
               acqusition_time := to_iso meta.acquisition_time,
               latency := successLatency meta, updated_at := now })

/-- `mark_failed` on the `downloads` table: upsert; on conflict SETs
`status='failed'`, `file_path` and `updated_at`. -/
def mark_failed (now : ℕ) (product_id : String) (query_id : Option ℤ)
    (final_path : String) (meta : Meta) (t : List DlRow) : List DlRow :=
  upsert t product_id
    { inProgressRow now product_id query_id meta final_path with
        status := "failed" }
    (fun r =>
      { r with status := "failed", file_path := final_path,
               updated_at := now })

/-- An `OptionalRCMDB` handle: the `enabled` flag and the `downloads` table of
the connected store. -/
structure RcmDB where
  enabled : Bool
  downloads : List DlRow
deriving Repr

/-- `mark_in_progress` at handle level: a disabled handle no-ops. -/
def db_mark_in_progress (db : RcmDB) (now : ℕ) (product_id : String)
    (query_id : Option ℤ) (meta : Meta) (file_path : String) : RcmDB :=
  if db.enabled then
    { db with downloads :=
        mark_in_progress now product_id query_id meta file_path db.downloads }
  else db

/-- `mark_success` at handle level: a disabled handle no-ops. -/
def db_mark_success (db : RcmDB) (now : ℕ) (product_id : String)
    (query_id : Option ℤ) (final_path : String) (meta : Meta)
    (size_mb : Option ℚ) (chksum : Option String) : RcmDB :=
  if db.enabled then
    { db with downloads :=
        (mark_success now product_id query_id final_path meta size_mb chksum
          db.downloads) }
  else db

/-- `mark_failed` at handle level: a disabled handle no-ops. -/
def db_mark_failed (db : RcmDB) (now : ℕ) (product_id : String)
    (query_id : Option ℤ) (final_path : String) (meta : Meta) : RcmDB :=
  if db.enabled then
    { db with downloads :=
        mark_failed now product_id query_id final_path meta db.downloads }
  else db

/-- One write operation on the `downloads` table, for stating invariants over
arbitrary sequences of mark calls. -/
inductive MarkOp where
  | inProgress (now : ℕ) (pid : String) (qid : Option ℤ) (meta : Meta)
      (fp : String) : MarkOp
  | success (now : ℕ) (pid : String) (qid : Option ℤ) (fp : String)
      (meta : Meta) (size_mb : Option ℚ) (chksum : Option String) : MarkOp
  | failed (now : ℕ) (pid : String) (qid : Option ℤ) (fp : String)
      (meta : Meta) : MarkOp

/-- Apply one mark operation to the table. -/
def applyMark (t : List DlRow) : MarkOp → List DlRow
  | .inProgress now pid qid meta fp => mark_in_progress now pid qid meta fp t
  | .success now pid qid fp meta s c => mark_success now pid qid fp meta s c t
  | .failed now pid qid fp meta => mark_failed now pid qid fp meta t

/-- Apply a sequence of mark operations. -/
def applyMarks (t : List DlRow) (ops : List MarkOp) : List DlRow :=
  ops.foldl applyMark t

/-- "At most one live row per `product_id`" (the table's UNIQUE key). -/
def uniquePid (t : List DlRow) : Prop :=
  ∀ pid : String, t.countP (fun r => r.product_id == pid) ≤ 1

/-! ### downloads.py : filesystem model -/

/-- Byte strings. -/
abbrev Bytes := List ℕ

/-- The paths a download task for basename `nm` touches:
`in_progress/<nm>.part` (the temp file `_download_with_retries` streams to),
`in_progress/<nm>` (its `dest`), and `completed/<nm>`. -/
inductive FKey where
  | part (nm : String) : FKey
  | inprog (nm : String) : FKey
  | completed (nm : String) : FKey
deriving Repr, DecidableEq

/-- The basename a path belongs to. -/
def FKey.nm : FKey → String
  | .part nm => nm
  | .inprog nm => nm
  | .completed nm => nm

/-- The filesystem: contents of each path, `none` = file does not exist. -/
def FS : Type := FKey → Option Bytes

/-- Write/overwrite (`some`) or remove (`none`) one path. -/
def FS.wr (fs : FS) (k : FKey) (v : Option Bytes) : FS :=
  fun k' => if k' = k then v else fs k'

theorem FS.wr_same (fs : FS) (k : FKey) (v : Option Bytes) :
    fs.wr k v k = v := by
  simp [FS.wr]

theorem FS.wr_other (fs : FS) (k k' : FKey) (v : Option Bytes)
    (h : k' ≠ k) : fs.wr k v k' = fs k' := by
  simp [FS.wr, h]

/-! ### downloads.py : `_download_with_retries` -/

/-- The network's behaviour on one `requests.get(url, stream=True, ...)`
attempt: either the call itself raises (connection error), or a response
arrives with a status code, an optional parsed `Content-Length`, the chunk
sequence `iter_content` would deliver, and — when `interruptedAfter = some d`
— a mid-stream exception after `d` chunks were written. -/
inductive DlAttempt where
  | connError : DlAttempt
  | resp (status : ℕ) (contentLength : Option ℕ) (chunks : List Bytes)
      (interruptedAfter : Option ℕ) : DlAttempt

/-- `r.status_code == 429 or 500 <= r.status_code < 600`. -/
def dl_retry_status (st : ℕ) : Bool :=
  st == 429 || (500 ≤ st && st < 600)

/-- `raise_for_status` raises exactly for 4xx/5xx codes. -/
def raises_for_status (st : ℕ) : Bool :=
  400 ≤ st

/-- The filesystem states the temp file passes through while streaming:
truncation on `open(tmp, "wb")`, then one state per written chunk (`d` chunks
get written). -/
def chunkStates (fs : FS) (nm : String) (chunks : List Bytes) (d : ℕ) :
    List FS :=
  (List.range (d + 1)).map
    (fun j => fs.wr (.part nm) (some ((chunks.take j).flatten)))

/-- Result of the retry loop of `_download_with_retries`: final filesystem,
whether `dest` was returned (no exception), network calls and sleeps
performed, and every intermediate filesystem state in order. -/
structure DlRes where
  fs : FS
  ok : Bool
  calls : ℕ
  sleeps : ℕ
  trace : List FS

/-- The retry loop of `_download_with_retries(url, dest, ...)` for the task
with basename `nm` (`dest = in_progress/<nm>`, `tmp = dest + ".part"`),
starting at attempt number `attempt`.  `sizeParam` is the parsed `?size=`
query parameter of `url`.  On a 429/5xx with attempts remaining it sleeps and
retries without touching the filesystem; any exception (connection error,
`raise_for_status`, mid-stream interruption, size mismatch) removes the temp
file and then retries or propagates; a completed stream is size-checked
against `_parse_expected_size(url, None)` and committed by
`os.replace(tmp, dest)`. -/
def download_loop (nm : String) (sizeParam : Option ℕ)
    (oracle : ℕ → DlAttempt) (max_retries attempt : ℕ) (fs : FS)
    (calls sleeps : ℕ) (trace : List FS) : DlRes :=
  if _h : attempt ≤ max_retries then
    match oracle attempt with
    | .connError =>
      let fs' := fs.wr (.part nm) none
      if attempt < max_retries then
        download_loop nm sizeParam oracle max_retries (attempt + 1) fs'
          (calls + 1) (sleeps + 1) (trace ++ [fs'])
      else ⟨fs', false, calls + 1, sleeps, trace ++ [fs']⟩
    | .resp st _cl chunks intr =>
      if dl_retry_status st ∧ attempt < max_retries then
        download_loop nm sizeParam oracle max_retries (attempt + 1) fs
          (calls + 1) (sleeps + 1) trace
      else if raises_for_status st then
        let fs' := fs.wr (.part nm) none
        if attempt < max_retries then
          download_loop nm sizeParam oracle max_retries (attempt + 1) fs'
            (calls + 1) (sleeps + 1) (trace ++ [fs'])
        else ⟨fs', false, calls + 1, sleeps, trace ++ [fs']⟩
      else
        match intr with
        | some d =>
          let states := chunkStates fs nm chunks (min d chunks.length)
          let fs' := fs.wr (.part nm) none
          if attempt < max_retries then
            download_loop nm sizeParam oracle max_retries (attempt + 1) fs'
              (calls + 1) (sleeps + 1) (trace ++ states ++ [fs'])
          else ⟨fs', false, calls + 1, sleeps, trace ++ states ++ [fs']⟩
        | none =>
          let body := chunks.flatten
          let states := chunkStates fs nm chunks chunks.length
          let mismatch : Bool :=
            match parse_expected_size sizeParam none with
            | some n => body.length != n
            | none => false
          if mismatch then
            let fs' := fs.wr (.part nm) none
            if attempt < max_retries then
              download_loop nm sizeParam oracle max_retries (attempt + 1) fs'
                (calls + 1) (sleeps + 1) (trace ++ states ++ [fs'])
            else ⟨fs', false, calls + 1, sleeps, trace ++ states ++ [fs']⟩
          else
            let fsC := (fs.wr (.part nm) none).wr (.inprog nm) (some body)
            ⟨fsC, true, calls + 1, sleeps, trace ++ states ++ [fsC]⟩
  else ⟨fs, true, calls, sleeps, trace⟩
termination_by max_retries + 1 - attempt

/-! ### downloads.py : `download_items`'s per-task `job` -/

/-- One download task: the basename of the URL path, the parsed `?size=`
parameter of its URL, and the network's behaviour on each attempt for it
(fixed, since the source data does not change between runs). -/
structure DlTask where
  nm : String
  sizeParam : Option ℕ
  oracle : ℕ → DlAttempt

/-- The skip-if-complete test of `job`: an expected size is known from the
URL and a file exists at the completed path with exactly that size. -/
def skip_check (t : DlTask) (fs : FS) : Bool :=
  match t.sizeParam, fs (.completed t.nm) with
  | some n, some b => b.length == n
  | _, _ => false

/-- `job(idx, url, aid)` for one task (with `unzip=False`): skip if already
complete, else run `_download_with_retries` into `in_progress/<nm>` and move
the result to `completed/<nm>` with `os.replace`. -/
def download_job (t : DlTask) (max_retries : ℕ) (fs : FS) : DlRes :=
  if skip_check t fs then ⟨fs, true, 0, 0, []⟩
  else
    let L := download_loop t.nm t.sizeParam t.oracle max_retries 1 fs 0 0 []
    if L.ok then
      match L.fs (.inprog t.nm) with
      | some c =>
        let fsF := (L.fs.wr (.inprog t.nm) none).wr (.completed t.nm) (some c)
        ⟨fsF, true, L.calls, L.sleeps, L.trace ++ [fsF]⟩
      | none => ⟨L.fs, false, L.calls, L.sleeps, L.trace⟩
    else ⟨L.fs, false, L.calls, L.sleeps, L.trace⟩

/-- `download_items` over the task list derived from the `ready` bucket, run
serially (the pool is bounded and tasks are independent); returns the final
filesystem and each task's network-call count. -/
def download_items (ts : List DlTask) (max_retries : ℕ) (fs : FS) :
    FS × List ℕ :=
  match ts with
  | [] => (fs, [])
  | t :: rest =>
    let r := download_job t max_retries fs
    ((download_items rest max_retries r.fs).1,
      r.calls :: (download_items rest max_retries r.fs).2)

/-! ## Claim theorems -/

/-! ### C4 : retry-sleep policy of the request executor -/

/-- C4: for every retry sleep in the request executor, the pre-jitter delay is
the numeric `Retry-After` value exactly when the response is a 429 carrying
one, and `min(max_backoff, backoff_factor * 2^(attempt-1))` otherwise; the
latter is non-decreasing in the attempt number and never exceeds
`max_backoff`; the slept delay is the pre-jitter delay times the jitter
factor `0.5 + 0.5 * random()`, which lies in `[0.5, 1.0]`. -/
theorem retry_sleep_policy (r : Resp) (resp : Option Resp)
    (attempt attempt' : ℕ) (backoff_factor max_backoff u q : ℚ)
    (hbf : 0 ≤ backoff_factor) (hu0 : 0 ≤ u) (hu1 : u < 1)
    (hle : attempt ≤ attempt') :
    (r.statusCode = some 429 → r.retryAfter = some (some q) →
      sleep_for_retry_base (some r) attempt backoff_factor max_backoff = q) ∧
    ((r.statusCode ≠ some 429 ∨ r.retryAfter = none ∨
        r.retryAfter = some none) →
      sleep_for_retry_base (some r) attempt backoff_factor max_backoff
        = min max_backoff (backoff_factor * 2 ^ (attempt - 1))) ∧
    (sleep_for_retry_base none attempt backoff_factor max_backoff
        = min max_backoff (backoff_factor * 2 ^ (attempt - 1))) ∧
    (min max_backoff (backoff_factor * 2 ^ (attempt - 1))
        ≤ min max_backoff (backoff_factor * 2 ^ (attempt' - 1))) ∧
    (min max_backoff (backoff_factor * 2 ^ (attempt - 1)) ≤ max_backoff) ∧
    ((1 : ℚ)/2 ≤ 1/2 + 1/2 * u ∧ 1/2 + 1/2 * u ≤ 1) ∧
    (sleep_for_retry_slept resp attempt backoff_factor max_backoff u
        = sleep_for_retry_base resp attempt backoff_factor max_backoff
            * (1/2 + 1/2 * u)) := by
  refine ⟨?_, ?_, ?_, ?_, ?_, ⟨by linarith, by linarith⟩, rfl⟩
  · intro h429 hra
    simp [sleep_for_retry_base, h429, hra]
  · rintro (h | h | h) <;> simp [sleep_for_retry_base, h]
  · simp [sleep_for_retry_base]
  · refine min_le_min le_rfl ?_
    refine mul_le_mul_of_nonneg_left ?_ hbf
    exact pow_le_pow_right₀ (by norm_num) (Nat.sub_le_sub_right hle 1)
  · exact min_le_left _ _

/-- Concrete instance of the C4 theorem: a 429 with `Retry-After: 7` on
attempt 2 sleeps `7` pre-jitter, and the backoff formula is monotone from
attempt 2 to attempt 3. -/
theorem retry_sleep_policy_witness :
    sleep_for_retry_base (some ⟨some 429, some (some 7)⟩) 2 1 30 = 7 ∧
    min (30 : ℚ) (1 * 2 ^ (2 - 1)) ≤ min (30 : ℚ) (1 * 2 ^ (3 - 1)) := by
  have h := retry_sleep_policy ⟨some 429, some (some 7)⟩ none 2 3 1 30 0 7
    (by norm_num) (by norm_num) (by norm_num) (by norm_num)
  exact ⟨h.1 rfl rfl, h.2.2.2.1⟩

/-! ### C5 : the persistence-shadow schema gate -/

/-- A store whose two tables have exactly the columns listed in the spec's
external-interface schema (§6), with the acquisition-time column spelled
`acquisition_time`. -/
def specSchemaTables : String → List String := fun table =>
  if table = "queries" then
    ["id", "constellation", "geometry_wkt", "start_date", "end_date",
     "parameters", "created_at"]
  else if table = "downloads" then
    ["product_id", "query_id", "constellation", "sensor_mode", "product_type",
     "processing_level", "status", "acquisition_time", "publication_time",
     "latency", "coordinates", "latitude", "longitude", "name", "quicklook",
     "file_path", "file_size_mb", "checksum", "created_at", "updated_at"]
  else []

/-- A store whose two tables have exactly the columns the source expects
(the acquisition-time column spelled `acqusition_time`, as in
`_EXPECTED_DL_COLS`). -/
def codeSchemaTables : String → List String := fun table =>
  if table = "queries" then expected_query_cols
  else if table = "downloads" then expected_dl_cols
  else []

/-- C5, counterexample: the claim asserts that a store whose `queries` and
`downloads` tables have exactly the columns of the spec's external-interface
schema — including `acquisition_time` — yields an enabled handle.  On the
code it does not: `_EXPECTED_DL_COLS` requires the column `acqusition_time`
(sic), which such a store lacks, so the handle is disabled. -/
theorem schema_gate_spec_schema_disabled :
    ("acquisition_time" ∈ specSchemaTables "downloads") ∧
    ("acqusition_time" ∉ specSchemaTables "downloads") ∧
    rcmdb_enabled (.opened specSchemaTables) = false := by
  refine ⟨by simp [specSchemaTables], by simp [specSchemaTables], ?_⟩
  simp [rcmdb_enabled, subset_present, expected_dl_cols, specSchemaTables]

/-- C5 (amended): opening the persistence shadow yields an enabled handle iff
the store can be opened and the expected column set of each table is a subset
of that table's actual columns; a store whose tables have exactly the columns
the code expects — with the column spelled `acqusition_time` — is enabled,
while the spec's spelling `acquisition_time` leaves the handle disabled, so
any missing required column disables all writes. -/
theorem schema_gate_enabled_iff (acc : StoreAccess) :
    (rcmdb_enabled acc = true ↔
      ∃ tables, acc = .opened tables ∧
        subset_present tables "queries" expected_query_cols = true ∧
        subset_present tables "downloads" expected_dl_cols = true) ∧
    rcmdb_enabled (.opened codeSchemaTables) = true := by
  constructor
  · cases acc with
    | opened tables =>
      simp only [rcmdb_enabled, Bool.and_eq_true]
      constructor
      · rintro ⟨h1, h2⟩
        exact ⟨tables, rfl, h1, h2⟩
      · rintro ⟨t, ht, h1, h2⟩
        cases ht
        exact ⟨h1, h2⟩
    | noPath => simp [rcmdb_enabled]
    | missingFile => simp [rcmdb_enabled]
    | connectFail => simp [rcmdb_enabled]
  · simp [rcmdb_enabled, subset_present, codeSchemaTables]

/-! ### C8 : terminal behaviour of `_request_with_retries` -/

theorem request_loop_out (oracle : ℕ → ReqAttempt) (max_retries attempt s : ℕ)
    (h : ¬ attempt ≤ max_retries) :
    request_loop oracle max_retries attempt s = ⟨.ok none, attempt - 1, s⟩ := by
  rw [request_loop]
  simp [h]

theorem request_loop_err (oracle : ℕ → ReqAttempt) (max_retries attempt s : ℕ)
    (h : attempt ≤ max_retries) (he : oracle attempt = .error ()) :
    request_loop oracle max_retries attempt s = ⟨.error (), attempt, s⟩ := by
  rw [request_loop]
  simp [h, he]

theorem request_loop_done (oracle : ℕ → ReqAttempt) (max_retries attempt s : ℕ)
    (r : Resp) (h : attempt ≤ max_retries) (hr : oracle attempt = .ok r)
    (hterm : req_success r.statusCode = true ∨
      req_retryable r.statusCode = false ∨ attempt = max_retries) :
    request_loop oracle max_retries attempt s = ⟨.ok (some r), attempt, s⟩ := by
  rw [request_loop]
  rcases hterm with hs | hret | hmax
  · simp [h, hr, hs]
  · simp [h, hr, hret]
  · subst hmax
    simp [h, hr]

theorem request_loop_retry (oracle : ℕ → ReqAttempt)
    (max_retries attempt s : ℕ) (r : Resp) (h : attempt < max_retries)
    (hr : oracle attempt = .ok r) (hs : req_success r.statusCode = false)
    (hret : req_retryable r.statusCode = true) :
    request_loop oracle max_retries attempt s
      = request_loop oracle max_retries (attempt + 1) (s + 1) := by
  rw [request_loop]
  simp [le_of_lt h, hr, hs, hret, h]

/-- Running the executor's loop past a block of `d` attempts that all return
retryable, non-success responses: each one sleeps and retries. -/
theorem request_loop_skip (oracle : ℕ → ReqAttempt) (max_retries d : ℕ) :
    ∀ a s, a + d ≤ max_retries →
    (∀ i, a ≤ i → i < a + d → ∃ r, oracle i = .ok r ∧
      req_success r.statusCode = false ∧ req_retryable r.statusCode = true) →
    request_loop oracle max_retries a s
      = request_loop oracle max_retries (a + d) (s + d) := by
  induction d with
  | zero => intro a s _ _; simp
  | succ n ih =>
    intro a s hm hmid
    obtain ⟨r, hr, hs, hret⟩ := hmid a le_rfl (by omega)
    rw [request_loop_retry oracle max_retries a s r (by omega) hr hs hret]
    have h2 := ih (a + 1) (s + 1) (by omega)
      (fun i h1 hlt => hmid i (by omega) (by omega))
    have e1 : a + 1 + n = a + (n + 1) := by omega
    have e2 : s + 1 + n = s + (n + 1) := by omega
    rw [h2, e1, e2]

/-- C8: the request executor treats 200/202 as terminal success, returning
that response at that attempt; any other non-retryable HTTP status is
likewise returned at once; a retryable status on the last attempt returns
that last failing response; in every case the result is a returned response,
not an exception. -/
theorem request_executor_terminal (oracle : ℕ → ReqAttempt)
    (max_retries k : ℕ) (r : Resp) (hk1 : 1 ≤ k) (hkm : k ≤ max_retries)
    (hr : oracle k = .ok r)
    (hpre : ∀ i, 1 ≤ i → i < k → ∃ r', oracle i = .ok r' ∧
      req_success r'.statusCode = false ∧
      req_retryable r'.statusCode = true) :
    (req_success r.statusCode = true →
      request_with_retries oracle max_retries = ⟨.ok (some r), k, k - 1⟩) ∧
    (req_success r.statusCode = false → req_retryable r.statusCode = false →
      request_with_retries oracle max_retries = ⟨.ok (some r), k, k - 1⟩) ∧
    (req_retryable r.statusCode = true → k = max_retries →
      request_with_retries oracle max_retries = ⟨.ok (some r), k, k - 1⟩) := by
  have hskip : request_with_retries oracle max_retries
      = request_loop oracle max_retries k (k - 1) := by
    unfold request_with_retries
    have h2 := request_loop_skip oracle max_retries (k - 1) 1 0 (by omega)
      (fun i h1 hlt => hpre i h1 (by omega))
    rw [h2]
    have e1 : 1 + (k - 1) = k := by omega
    have e2 : 0 + (k - 1) = k - 1 := by omega
    rw [e1, e2]
  refine ⟨fun hs => ?_, fun hs hret => ?_, fun hret hmax => ?_⟩
  · rw [hskip, request_loop_done oracle max_retries k (k - 1) r hkm hr
      (Or.inl hs)]
  · rw [hskip, request_loop_done oracle max_retries k (k - 1) r hkm hr
      (Or.inr (Or.inl hret))]
  · rw [hskip, request_loop_done oracle max_retries k (k - 1) r hkm hr
      (Or.inr (Or.inr hmax))]

/-- The network behaviour used by the C8 witness: a 503 on attempt 1, then a
200. -/
def wOracleC8 : ℕ → ReqAttempt := fun i =>
  if i = 1 then .ok ⟨some 503, none⟩ else .ok ⟨some 200, none⟩

/-- Concrete instance of the C8 theorem: with `max_retries = 5`, a 503 then a
200 makes the executor return the 200 response at attempt 2 after one
sleep. -/
theorem request_executor_terminal_witness :
    request_with_retries wOracleC8 5
      = ⟨.ok (some ⟨some 200, none⟩), 2, 1⟩ := by
  have h := request_executor_terminal wOracleC8 5 2 ⟨some 200, none⟩
    (by norm_num) (by norm_num) (by simp [wOracleC8])
    (fun i h1 h2 => by
      have hi : i = 1 := by omega
      subst hi
      exact ⟨⟨some 503, none⟩, by simp [wOracleC8], by decide, by decide⟩)
  exact h.1 (by decide)

/-! ### C2 : bucket partition of the status poller -/

/-- The record an input of `get_items_from_results` contributes, if any:
`none` when its identifiers do not resolve or its fetch failed. -/
def keepOf (x : PollInput) : Option ItemRec :=
  match resolve_ids x.qr with
  | none => none
  | some _ => x.fetch

/-- The contribution of one (optional) fetched record to `ready`. -/
def readyO : Option ItemRec → Option ItemRec
  | some d => if d.status = some "Available" then some d else none
  | none => none

/-- The contribution of one (optional) fetched record to `queued`. -/
def queuedO : Option ItemRec → Option ItemRec
  | some d =>
    if d.status = some "Available" then none
    else if d.status = some "Queued" then some d else none
  | none => none

/-- The contribution of one (optional) fetched record to `unknown`. -/
def unknownO : Option ItemRec → Option ItemRec
  | some d =>
    if d.status = some "Available" then none
    else if d.status = some "Queued" then none else some d
  | none => none

theorem itemStep_eq (b : Buckets) (o : Option ItemRec) :
    itemStep b o =
      ⟨b.ready ++ (readyO o).toList, b.queued ++ (queuedO o).toList,
       b.unknown ++ (unknownO o).toList⟩ := by
  cases o with
  | none => simp [itemStep, readyO, queuedO, unknownO]
  | some d =>
    by_cases hA : d.status = some "Available"
    · simp [itemStep, bucketAdd, readyO, queuedO, unknownO, hA]
    · by_cases hQ : d.status = some "Queued"
      · simp [itemStep, bucketAdd, readyO, queuedO, unknownO, hA, hQ]
      · simp [itemStep, bucketAdd, readyO, queuedO, unknownO, hA, hQ]

theorem foldl_itemStep (ys : List (Option ItemRec)) :
    ∀ b : Buckets, ys.foldl itemStep b =
      ⟨b.ready ++ ys.filterMap readyO, b.queued ++ ys.filterMap queuedO,
       b.unknown ++ ys.filterMap unknownO⟩ := by
  induction ys with
  | nil => intro b; simp
  | cons o ys ih =>
    intro b
    rw [List.foldl_cons, ih, itemStep_eq]
    simp only [List.filterMap_cons]
    cases ho : readyO o <;> cases hq : queuedO o <;> cases hu : unknownO o <;>
      simp [Option.toList]

theorem get_items_eq (ys : List (Option ItemRec)) :
    get_items ys =
      ⟨ys.filterMap readyO, ys.filterMap queuedO, ys.filterMap unknownO⟩ := by
  rw [get_items, foldl_itemStep]
  simp

theorem pollStep_eq_itemStep (b : Buckets) (x : PollInput) :
    pollStep b x = itemStep b (keepOf x) := by
  unfold pollStep keepOf
  cases resolve_ids x.qr with
  | none => simp [itemStep]
  | some ids => cases x.fetch <;> simp [itemStep]

theorem get_items_from_results_eq (xs : List PollInput) :
    get_items_from_results xs = get_items (xs.map keepOf) := by
  unfold get_items_from_results get_items
  rw [List.foldl_map]
  congr 1
  funext b x
  exact pollStep_eq_itemStep b x

theorem bucket_lengths (ys : List (Option ItemRec)) :
    (ys.filterMap readyO).length + (ys.filterMap queuedO).length
      + (ys.filterMap unknownO).length = ys.countP Option.isSome := by
  induction ys with
  | nil => simp
  | cons o ys ih =>
    rw [List.countP_cons]
    simp only [List.filterMap_cons]
    cases o with
    | none => simpa [readyO, queuedO, unknownO] using ih
    | some d =>
      by_cases hA : d.status = some "Available"
      · simp only [readyO, queuedO, unknownO, hA, if_pos, if_neg]
        simp [List.length_cons]
        omega
      · by_cases hQ : d.status = some "Queued"
        · simp only [readyO, queuedO, unknownO, hA, hQ, if_pos, if_neg]
          simp
          omega
        · simp only [readyO, queuedO, unknownO, hA, hQ, if_neg]
          simp
          omega

/-- C2: for both entry points of the status poller, each successfully fetched
record is appended to exactly the bucket selected by its status (`Available →
ready`, `Queued → queued`, other → `unknown`); dropped items (unresolvable
identifiers or failed fetch) contribute to no bucket; hence
`len ready + len queued + len unknown ≤ len input`, with equality exactly
when no item was dropped. -/
theorem bucket_partition (xs : List PollInput) (ys : List (Option ItemRec)) :
    (get_items ys =
      ⟨ys.filterMap readyO, ys.filterMap queuedO, ys.filterMap unknownO⟩) ∧
    (get_items_from_results xs =
      ⟨(xs.map keepOf).filterMap readyO, (xs.map keepOf).filterMap queuedO,
       (xs.map keepOf).filterMap unknownO⟩) ∧
    (∀ d : ItemRec,
      (d.status = some "Available" → readyO (some d) = some d ∧
        queuedO (some d) = none ∧ unknownO (some d) = none) ∧
      (d.status = some "Queued" → readyO (some d) = none ∧
        queuedO (some d) = some d ∧ unknownO (some d) = none) ∧
      (d.status ≠ some "Available" → d.status ≠ some "Queued" →
        readyO (some d) = none ∧ queuedO (some d) = none ∧
        unknownO (some d) = some d)) ∧
    (readyO none = none ∧ queuedO none = none ∧ unknownO none = none) ∧
    ((get_items ys).ready.length + (get_items ys).queued.length
        + (get_items ys).unknown.length = ys.countP Option.isSome) ∧
    ((get_items ys).ready.length + (get_items ys).queued.length
        + (get_items ys).unknown.length ≤ ys.length) ∧
    (((get_items ys).ready.length + (get_items ys).queued.length
        + (get_items ys).unknown.length = ys.length) ↔
      ∀ o ∈ ys, Option.isSome o = true) ∧
    ((get_items_from_results xs).ready.length
        + (get_items_from_results xs).queued.length
        + (get_items_from_results xs).unknown.length
        = xs.countP (fun x => (keepOf x).isSome)) ∧
    ((get_items_from_results xs).ready.length
        + (get_items_from_results xs).queued.length
        + (get_items_from_results xs).unknown.length ≤ xs.length) ∧
    (((get_items_from_results xs).ready.length
        + (get_items_from_results xs).queued.length
        + (get_items_from_results xs).unknown.length = xs.length) ↔
      ∀ x ∈ xs, (keepOf x).isSome = true) := by
  have hg := get_items_eq ys
  have hgf : get_items_from_results xs = get_items (xs.map keepOf) :=
    get_items_from_results_eq xs
  have hcount : (get_items ys).ready.length + (get_items ys).queued.length
      + (get_items ys).unknown.length = ys.countP Option.isSome := by
    rw [hg]
    exact bucket_lengths ys
  have hcountf : (get_items_from_results xs).ready.length
      + (get_items_from_results xs).queued.length
      + (get_items_from_results xs).unknown.length
      = xs.countP (fun x => (keepOf x).isSome) := by
    rw [hgf, get_items_eq]
    have h2 := bucket_lengths (xs.map keepOf)
    rw [List.countP_map] at h2
    exact h2
  refine ⟨hg, by rw [hgf, get_items_eq], ?_, by simp [readyO, queuedO, unknownO],
    hcount, ?_, ?_, hcountf, ?_, ?_⟩
  · intro d
    refine ⟨fun hA => ?_, fun hQ => ?_, fun hA hQ => ?_⟩
    · simp [readyO, queuedO, unknownO, hA]
    · simp [readyO, queuedO, unknownO, hQ]
    · simp [readyO, queuedO, unknownO, hA, hQ]
  · rw [hcount]
    exact List.countP_le_length _
  · rw [hcount]
    exact List.countP_eq_length
  · rw [hcountf]
    exact List.countP_le_length _
  · rw [hcountf]
    exact List.countP_eq_length

/-! ### C9 : upsert idempotence of the durable store -/

theorem upsert_countP (t : List DlRow) (pid : String) (fresh : DlRow)
    (upd : DlRow → DlRow) (hupd : ∀ r, (upd r).product_id = r.product_id)
    (hfresh : fresh.product_id = pid) (pid' : String) :
    (upsert t pid fresh upd).countP (fun r => r.product_id == pid')
      = if t.any (fun r => r.product_id == pid) then
          t.countP (fun r => r.product_id == pid')
        else t.countP (fun r => r.product_id == pid')
          + (if pid' = pid then 1 else 0) := by
  unfold upsert
  by_cases h : t.any (fun r => r.product_id == pid) = true
  · rw [if_pos h, if_pos h, List.countP_map]
    refine List.countP_congr (fun r _ => ?_)
    by_cases hm : r.product_id == pid
    · simp only [Function.comp, hm, if_pos, hupd]
    · simp only [Function.comp, hm]
      simp [hm]
  · rw [if_neg h, if_neg h, List.countP_append]
    congr 1
    by_cases he : pid' = pid
    · subst he
      simp [List.countP_cons, hfresh]
    · have : (fresh.product_id == pid') = false := by
        rw [hfresh]
        exact beq_eq_false_iff_ne.mpr (fun hc => he hc.symm)
      simp [List.countP_cons, this, he]

theorem upsert_uniquePid (t : List DlRow) (pid : String) (fresh : DlRow)
    (upd : DlRow → DlRow) (hupd : ∀ r, (upd r).product_id = r.product_id)
    (hfresh : fresh.product_id = pid) (hu : uniquePid t) :
    uniquePid (upsert t pid fresh upd) := by
  intro pid'
  rw [upsert_countP t pid fresh upd hupd hfresh pid']
  by_cases h : t.any (fun r => r.product_id == pid) = true
  · rw [if_pos h]
    exact hu pid'
  · rw [if_neg h]
    by_cases he : pid' = pid
    · subst he
      have h0 : t.countP (fun r => r.product_id == pid') = 0 := by
        rw [List.countP_eq_zero]
        intro r hr
        have := (List.any_eq_false.mp (Bool.eq_false_iff.mpr h)) r hr
        simpa using this
      simp [h0]
    · simp only [if_neg he, Nat.add_zero]
      exact hu pid'

theorem applyMark_uniquePid (t : List DlRow) (op : MarkOp)
    (hu : uniquePid t) : uniquePid (applyMark t op) := by
  cases op with
  | inProgress now pid qid meta fp =>
    exact upsert_uniquePid _ _ _ _ (fun r => rfl) rfl hu
  | success now pid qid fp meta s c =>
    exact upsert_uniquePid _ _ _ _ (fun r => rfl) rfl hu
  | failed now pid qid fp meta =>
    exact upsert_uniquePid _ _ _ _ (fun r => rfl) rfl hu

theorem applyMarks_uniquePid (ops : List MarkOp) :
    ∀ t : List DlRow, uniquePid t → uniquePid (applyMarks t ops) := by
  induction ops with
  | nil => intro t hu; exact hu
  | cons op ops ih =>
    intro t hu
    exact ih _ (applyMark_uniquePid t op hu)

theorem mark_in_progress_countP (now : ℕ) (pid : String) (qid : Option ℤ)
    (meta : Meta) (fp : String) (t : List DlRow) (hu : uniquePid t) :
    (mark_in_progress now pid qid meta fp t).countP
      (fun r => r.product_id == pid) = 1 := by
  unfold mark_in_progress
  have hcp := upsert_countP t pid (inProgressRow now pid qid meta fp)
    (fun r =>
      { r with status := "in_progress", file_path := fp, updated_at := now })
    (fun r => rfl) rfl pid
  rw [hcp]
  by_cases h : t.any (fun r => r.product_id == pid) = true
  · rw [if_pos h]
    have hpos : 0 < t.countP (fun r => r.product_id == pid) := by
      rw [List.countP_pos_iff]
      obtain ⟨r, hr, hp⟩ := List.any_eq_true.mp h
      exact ⟨r, hr, hp⟩
    have := hu pid
    omega
  · rw [if_neg h]
    have h0 : t.countP (fun r => r.product_id == pid) = 0 := by
      rw [List.countP_eq_zero]
      intro r hr
      have := (List.any_eq_false.mp (Bool.eq_false_iff.mpr h)) r hr
      simpa using this
    simp [h0]

theorem mark_success_count_status (now : ℕ) (pid : String) (qid : Option ℤ)
    (fp : String) (meta : Meta) (smb : Option ℚ) (ck : Option String)
    (t : List DlRow)
    (h1 : t.countP (fun r => r.product_id == pid) = 1) :
    (mark_success now pid qid fp meta smb ck t).countP
        (fun r => r.product_id == pid) = 1 ∧
    ∀ r ∈ mark_success now pid qid fp meta smb ck t,
      r.product_id = pid → r.status = "completed" := by
  have hany : t.any (fun r => r.product_id == pid) = true := by
    rw [List.any_eq_true]
    have hpos : 0 < t.countP (fun r => r.product_id == pid) := by omega
    obtain ⟨r, hr, hp⟩ := List.countP_pos_iff.mp hpos
    exact ⟨r, hr, hp⟩
  constructor
  · unfold mark_success
    have hcp := upsert_countP t pid (successRow now pid qid fp meta smb ck)
      (fun r =>
        { r with status := "completed", file_path := fp, file_size_mb := smb,
                 checksum := ck,
                 publication_time := to_iso meta.publication_time,
                 acqusition_time := to_iso meta.acquisition_time,
                 latency := successLatency meta, updated_at := now })
      (fun r => rfl) rfl pid
    rw [hcp, if_pos hany, h1]
  · intro r hr hrp
    unfold mark_success upsert at hr
    rw [if_pos hany] at hr
    obtain ⟨r0, _, rfl⟩ := List.mem_map.mp hr
    by_cases hm : r0.product_id == pid
    · simp only [hm, if_pos]
    · rw [if_neg (by simp [hm])] at hrp ⊢
      exact absurd hrp (by simpa using hm)

/-- C9: for an enabled handle over a store satisfying the UNIQUE key
invariant, `mark_in_progress` followed by `mark_success` for the same
`product_id` leaves exactly one row for that id, with final status
`completed`; and every mark operation is an upsert keyed by `product_id`, so
"at most one live row per product_id" is preserved by every sequence of mark
operations. -/
theorem upsert_idempotence (db : RcmDB) (now now' : ℕ) (pid : String)
    (qid qid' : Option ℤ) (meta meta' : Meta) (fp final : String)
    (smb : Option ℚ) (ck : Option String) (hen : db.enabled = true)
    (hu : uniquePid db.downloads) :
    ((db_mark_success (db_mark_in_progress db now pid qid meta fp) now' pid
        qid' final meta' smb ck).downloads.countP
        (fun r => r.product_id == pid) = 1) ∧
    (∀ r ∈ (db_mark_success (db_mark_in_progress db now pid qid meta fp) now'
        pid qid' final meta' smb ck).downloads,
      r.product_id = pid → r.status = "completed") ∧
    (∀ ops : List MarkOp, ∀ t : List DlRow, uniquePid t →
      uniquePid (applyMarks t ops)) := by
  have hen1 : (db_mark_in_progress db now pid qid meta fp).enabled = true := by
    simp [db_mark_in_progress, hen]
  have hstep : (db_mark_in_progress db now pid qid meta fp).downloads
      = mark_in_progress now pid qid meta fp db.downloads := by
    unfold db_mark_in_progress
    rw [if_pos hen]
  have hstep2 : (db_mark_success (db_mark_in_progress db now pid qid meta fp)
      now' pid qid' final meta' smb ck).downloads
      = mark_success now' pid qid' final meta' smb ck
          (mark_in_progress now pid qid meta fp db.downloads) := by
    unfold db_mark_success
    rw [if_pos hen1, hstep]
  have hc1 := mark_in_progress_countP now pid qid meta fp db.downloads hu
  have h2 := mark_success_count_status now' pid qid' final meta' smb ck
    (mark_in_progress now pid qid meta fp db.downloads) hc1
  refine ⟨?_, ?_, fun ops t hu' => applyMarks_uniquePid ops t hu'⟩
  · rw [hstep2]
    exact h2.1
  · rw [hstep2]
    exact h2.2

/-- Concrete instance of the C9 theorem: an enabled handle over an empty
table, marked in-progress then success for product id `"p1"`, holds exactly
one row for `"p1"` and it is `completed`. -/
theorem upsert_idempotence_witness :
    ((db_mark_success (db_mark_in_progress ⟨true, []⟩ 1 "p1" none
        ⟨none, none, none, none, none, none, none, none, none, none, none⟩
        "f.zip") 2 "p1" none "completed/f.zip"
        ⟨none, none, none, none, none, none, none, none, none, none, none⟩
        none none).downloads.countP (fun r => r.product_id == "p1") = 1) := by
  have h := upsert_idempotence ⟨true, []⟩ 1 2 "p1" none none
    ⟨none, none, none, none, none, none, none, none, none, none, none⟩
    ⟨none, none, none, none, none, none, none, none, none, none, none⟩
    "f.zip" "completed/f.zip" none none rfl
    (fun pid => by simp)
  exact h.1

/-! ### C10 : frame effect of `mark_in_progress` on an existing row -/

/-- C10: for an enabled handle, when `mark_in_progress` is called for a
`product_id` that already has a row, that row's `status`, `file_path` and
`updated_at` are set and every other column — identifiers, metadata,
`latency`, `file_size_mb`, `checksum`, `created_at` — keeps its previous
value; rows for other ids are untouched. -/
theorem mark_in_progress_frame (db : RcmDB) (now : ℕ) (pid : String)
    (qid : Option ℤ) (meta : Meta) (fp : String) (hen : db.enabled = true)
    (hex : ∃ r ∈ db.downloads, r.product_id = pid) :
    (db_mark_in_progress db now pid qid meta fp).downloads.length
      = db.downloads.length ∧
    ∀ (i : ℕ) (r r2 : DlRow), db.downloads[i]? = some r →
      (db_mark_in_progress db now pid qid meta fp).downloads[i]? = some r2 →
      r2.product_id = r.product_id ∧ r2.query_id = r.query_id ∧
      r2.constellation = r.constellation ∧ r2.sensor_mode = r.sensor_mode ∧
      r2.product_type = r.product_type ∧
      r2.processing_level = r.processing_level ∧
      r2.acqusition_time = r.acqusition_time ∧
      r2.publication_time = r.publication_time ∧ r2.latency = r.latency ∧
      r2.coordinates = r.coordinates ∧ r2.latitude = r.latitude ∧
      r2.longitude = r.longitude ∧ r2.name = r.name ∧
      r2.quicklook = r.quicklook ∧ r2.file_size_mb = r.file_size_mb ∧
      r2.checksum = r.checksum ∧ r2.created_at = r.created_at ∧
      (r.product_id = pid → r2.status = "in_progress" ∧ r2.file_path = fp ∧
        r2.updated_at = now) ∧
      (r.product_id ≠ pid → r2 = r) := by
  obtain ⟨r0, hr0, hp0⟩ := hex
  have hany : db.downloads.any (fun r => r.product_id == pid) = true := by
    rw [List.any_eq_true]
    exact ⟨r0, hr0, by simp [hp0]⟩
  have ht : (db_mark_in_progress db now pid qid meta fp).downloads
      = db.downloads.map (fun r =>
          if r.product_id == pid then
            { r with status := "in_progress", file_path := fp,
                     updated_at := now }
          else r) := by
    unfold db_mark_in_progress mark_in_progress upsert
    rw [if_pos hen, if_pos hany]
  constructor
  · rw [ht, List.length_map]
  · intro i r r2 hr hr2
    rw [ht, List.getElem?_map, hr] at hr2
    simp only [Option.map_some'] at hr2
    have hhreq : r2 = (if r.product_id == pid then
        { r with status := "in_progress", file_path := fp,
                 updated_at := now }
      else r) := (Option.some_inj.mp hr2).symm
    subst hhreq
    by_cases hm : r.product_id = pid
    · simp [hm]
    · simp [hm, beq_eq_false_iff_ne.mpr hm]

/-- The handle used by the C10 witness: enabled, one existing `completed`
row for product id `"p"`. -/
def dbC10 : RcmDB :=
  ⟨true, [⟨"p", none, "RCM", none, none, none, "completed", none, none, none,
    "null", none, none, none, none, "old/p.zip", none, none, 3, 4⟩]⟩

/-- Concrete instance of the C10 theorem: re-marking the existing row keeps
its `created_at` and changes its status to `in_progress`. -/
theorem mark_in_progress_frame_witness :
    (db_mark_in_progress dbC10 9 "p" none
      ⟨none, none, none, none, none, none, none, none, none, none, none⟩
      "new/p.zip").downloads.length = dbC10.downloads.length := by
  have h := mark_in_progress_frame dbC10 9 "p" none
    ⟨none, none, none, none, none, none, none, none, none, none, none⟩
    "new/p.zip" rfl ⟨dbC10.downloads.head (by simp [dbC10]), by simp [dbC10],
      by simp [dbC10]⟩
  exact h.1

/-! ### downloads.py : step equations and invariants of the retry loop -/

theorem download_loop_conn_retry (nm : String) (sizeParam : Option ℕ)
    (oracle : ℕ → DlAttempt) (m a : ℕ) (fs : FS) (c s : ℕ) (tr : List FS)
    (ha : a < m) (ho : oracle a = .connError) :
    download_loop nm sizeParam oracle m a fs c s tr
      = download_loop nm sizeParam oracle m (a + 1) (fs.wr (.part nm) none)
          (c + 1) (s + 1) (tr ++ [fs.wr (.part nm) none]) := by
  rw [download_loop]
  simp [le_of_lt ha, ho, ha]

theorem download_loop_status_retry (nm : String) (sizeParam : Option ℕ)
    (oracle : ℕ → DlAttempt) (m a : ℕ) (fs : FS) (c s : ℕ) (tr : List FS)
    (st : ℕ) (cl : Option ℕ) (chunks : List Bytes) (intr : Option ℕ)
    (ha : a < m) (ho : oracle a = .resp st cl chunks intr)
    (hst : dl_retry_status st = true) :
    download_loop nm sizeParam oracle m a fs c s tr
      = download_loop nm sizeParam oracle m (a + 1) fs (c + 1) (s + 1) tr := by
  rw [download_loop]
  simp [le_of_lt ha, ho, hst, ha]

theorem download_loop_mismatch_retry (nm : String) (sizeParam : Option ℕ)
    (oracle : ℕ → DlAttempt) (m a : ℕ) (fs : FS) (c s : ℕ) (tr : List FS)
    (st : ℕ) (cl : Option ℕ) (chunks : List Bytes) (n : ℕ)
    (ha : a < m) (ho : oracle a = .resp st cl chunks none)
    (hst : dl_retry_status st = false) (hrs : raises_for_status st = false)
    (hn : parse_expected_size sizeParam none = some n)
    (hlen : chunks.flatten.length ≠ n) :
    download_loop nm sizeParam oracle m a fs c s tr
      = download_loop nm sizeParam oracle m (a + 1) (fs.wr (.part nm) none)
          (c + 1) (s + 1)
          (tr ++ chunkStates fs nm chunks chunks.length
            ++ [fs.wr (.part nm) none]) := by
  have hlen2 : (chunks.map List.length).sum ≠ n := by
    rw [← List.length_flatten]
    exact hlen
  rw [download_loop]
  simp [le_of_lt ha, ho, hst, hrs, hn, hlen2, ha]

theorem download_loop_commit (nm : String) (sizeParam : Option ℕ)
    (oracle : ℕ → DlAttempt) (m a : ℕ) (fs : FS) (c s : ℕ) (tr : List FS)
    (st : ℕ) (cl : Option ℕ) (chunks : List Bytes)
    (ha : a ≤ m) (ho : oracle a = .resp st cl chunks none)
    (hst : dl_retry_status st = false) (hrs : raises_for_status st = false)
    (hok : ∀ n, parse_expected_size sizeParam none = some n →
      chunks.flatten.length = n) :
    download_loop nm sizeParam oracle m a fs c s tr
      = ⟨(fs.wr (.part nm) none).wr (.inprog nm) (some chunks.flatten), true,
          c + 1, s,
          tr ++ chunkStates fs nm chunks chunks.length
            ++ [(fs.wr (.part nm) none).wr (.inprog nm)
                  (some chunks.flatten)]⟩ := by
  have hsum : ∀ n, parse_expected_size sizeParam none = some n →
      (chunks.map List.length).sum = n := by
    intro n hp
    rw [← List.length_flatten]
    exact hok n hp
  rw [download_loop]
  cases hp : parse_expected_size sizeParam none with
  | none => simp [ha, ho, hst, hrs, hp]
  | some n => simp [ha, ho, hst, hrs, hp, hsum n hp]

theorem not_raises_not_retry (st : ℕ) (h : raises_for_status st = false) :
    dl_retry_status st = false := by
  unfold raises_for_status at h
  unfold dl_retry_status
  simp only [decide_eq_false_iff_not, not_le] at h
  have h1 : (st == 429) = false := by
    rw [beq_eq_false_iff_ne]
    omega
  have h2 : decide (500 ≤ st) = false := by
    simp only [decide_eq_false_iff_not]
    omega
  rw [h1, h2]
  simp

theorem download_loop_conn_last (nm : String) (sizeParam : Option ℕ)
    (oracle : ℕ → DlAttempt) (m a : ℕ) (fs : FS) (c s : ℕ) (tr : List FS)
    (ha : a ≤ m) (hlt : ¬ a < m) (ho : oracle a = .connError) :
    download_loop nm sizeParam oracle m a fs c s tr
      = ⟨fs.wr (.part nm) none, false, c + 1, s,
          tr ++ [fs.wr (.part nm) none]⟩ := by
  rw [download_loop]
  simp [ha, ho, hlt]

theorem download_loop_raises_retry (nm : String) (sizeParam : Option ℕ)
    (oracle : ℕ → DlAttempt) (m a : ℕ) (fs : FS) (c s : ℕ) (tr : List FS)
    (st : ℕ) (cl : Option ℕ) (chunks : List Bytes) (intr : Option ℕ)
    (ha : a < m) (ho : oracle a = .resp st cl chunks intr)
    (hst : dl_retry_status st = false) (hrs : raises_for_status st = true) :
    download_loop nm sizeParam oracle m a fs c s tr
      = download_loop nm sizeParam oracle m (a + 1) (fs.wr (.part nm) none)
          (c + 1) (s + 1) (tr ++ [fs.wr (.part nm) none]) := by
  rw [download_loop]
  simp [le_of_lt ha, ho, hst, hrs, ha]

theorem download_loop_raises_last (nm : String) (sizeParam : Option ℕ)
    (oracle : ℕ → DlAttempt) (m a : ℕ) (fs : FS) (c s : ℕ) (tr : List FS)
    (st : ℕ) (cl : Option ℕ) (chunks : List Bytes) (intr : Option ℕ)
    (ha : a ≤ m) (hlt : ¬ a < m) (ho : oracle a = .resp st cl chunks intr)
    (hrs : raises_for_status st = true) :
    download_loop nm sizeParam oracle m a fs c s tr
      = ⟨fs.wr (.part nm) none, false, c + 1, s,
          tr ++ [fs.wr (.part nm) none]⟩ := by
  rw [download_loop]
  simp [ha, ho, hrs, hlt]

theorem download_loop_intr_retry (nm : String) (sizeParam : Option ℕ)
    (oracle : ℕ → DlAttempt) (m a : ℕ) (fs : FS) (c s : ℕ) (tr : List FS)
    (st : ℕ) (cl : Option ℕ) (chunks : List Bytes) (d : ℕ)
    (ha : a < m) (ho : oracle a = .resp st cl chunks (some d))
    (hrs : raises_for_status st = false) :
    download_loop nm sizeParam oracle m a fs c s tr
      = download_loop nm sizeParam oracle m (a + 1) (fs.wr (.part nm) none)
          (c + 1) (s + 1)
          (tr ++ chunkStates fs nm chunks (min d chunks.length)
            ++ [fs.wr (.part nm) none]) := by
  have hst := not_raises_not_retry st hrs
  rw [download_loop]
  simp [le_of_lt ha, ho, hst, hrs, ha]

theorem download_loop_intr_last (nm : String) (sizeParam : Option ℕ)
    (oracle : ℕ → DlAttempt) (m a : ℕ) (fs : FS) (c s : ℕ) (tr : List FS)
    (st : ℕ) (cl : Option ℕ) (chunks : List Bytes) (d : ℕ)
    (ha : a ≤ m) (hlt : ¬ a < m) (ho : oracle a = .resp st cl chunks (some d))
    (hrs : raises_for_status st = false) :
    download_loop nm sizeParam oracle m a fs c s tr
      = ⟨fs.wr (.part nm) none, false, c + 1, s,
          tr ++ chunkStates fs nm chunks (min d chunks.length)
            ++ [fs.wr (.part nm) none]⟩ := by
  have hst := not_raises_not_retry st hrs
  rw [download_loop]
  simp [ha, ho, hst, hrs, hlt]

theorem download_loop_mismatch_last (nm : String) (sizeParam : Option ℕ)
    (oracle : ℕ → DlAttempt) (m a : ℕ) (fs : FS) (c s : ℕ) (tr : List FS)
    (st : ℕ) (cl : Option ℕ) (chunks : List Bytes) (n : ℕ)
    (ha : a ≤ m) (hlt : ¬ a < m) (ho : oracle a = .resp st cl chunks none)
    (hrs : raises_for_status st = false)
    (hn : parse_expected_size sizeParam none = some n)
    (hlen : chunks.flatten.length ≠ n) :
    download_loop nm sizeParam oracle m a fs c s tr
      = ⟨fs.wr (.part nm) none, false, c + 1, s,
          tr ++ chunkStates fs nm chunks chunks.length
            ++ [fs.wr (.part nm) none]⟩ := by
  have hst := not_raises_not_retry st hrs
  have hlen2 : (chunks.map List.length).sum ≠ n := by
    rw [← List.length_flatten]
    exact hlen
  rw [download_loop]
  simp [ha, ho, hst, hrs, hn, hlen2, hlt]

theorem download_loop_base (nm : String) (sizeParam : Option ℕ)
    (oracle : ℕ → DlAttempt) (m a : ℕ) (fs : FS) (c s : ℕ) (tr : List FS)
    (ha : ¬ a ≤ m) :
    download_loop nm sizeParam oracle m a fs c s tr
      = ⟨fs, true, c, s, tr⟩ := by
  rw [download_loop]
  simp [ha]

theorem chunkStates_mem (fs : FS) (nm : String) (chunks : List Bytes) (d : ℕ)
    (g : FS) (hg : g ∈ chunkStates fs nm chunks d) :
    ∃ j, g = fs.wr (.part nm) (some ((chunks.take j).flatten)) := by
  unfold chunkStates at hg
  obtain ⟨j, _, rfl⟩ := List.mem_map.mp hg
  exact ⟨j, rfl⟩

theorem retry_implies_raises (st : ℕ) (h : dl_retry_status st = true) :
    raises_for_status st = true := by
  unfold dl_retry_status at h
  unfold raises_for_status
  simp only [Bool.or_eq_true, beq_iff_eq, Bool.and_eq_true, decide_eq_true_eq]
    at h
  rcases h with h | ⟨h, _⟩ <;> simp <;> omega

/-- Master invariant of the retry loop: (1) it writes only the task's temp
and dest paths; (2) every trace state it adds agrees with the starting
filesystem away from those two paths; (3) if it returns `dest`, some attempt
`i ≤ max_retries` streamed to completion with an acceptable status, the dest
file holds exactly that attempt's full body, the body passes the size check,
and the temp file is gone; (4) if it fails, the temp file was removed and the
dest path was never written. -/
theorem download_loop_master (nm : String) (sp : Option ℕ)
    (oracle : ℕ → DlAttempt) (m : ℕ) :
    ∀ (a : ℕ) (fs : FS) (c s : ℕ) (tr : List FS),
    (∀ k, k ≠ FKey.part nm → k ≠ FKey.inprog nm →
       (download_loop nm sp oracle m a fs c s tr).fs k = fs k) ∧
    (∀ g ∈ (download_loop nm sp oracle m a fs c s tr).trace,
       g ∈ tr ∨ ∀ k, k ≠ FKey.part nm → k ≠ FKey.inprog nm → g k = fs k) ∧
    ((download_loop nm sp oracle m a fs c s tr).ok = true → a ≤ m →
       ∃ i st cl chunks, a ≤ i ∧ i ≤ m ∧
         oracle i = DlAttempt.resp st cl chunks none ∧
         dl_retry_status st = false ∧ raises_for_status st = false ∧
         (download_loop nm sp oracle m a fs c s tr).fs (.inprog nm)
           = some chunks.flatten ∧
         (∀ n, parse_expected_size sp none = some n →
           chunks.flatten.length = n) ∧
         (download_loop nm sp oracle m a fs c s tr).fs (.part nm) = none) ∧
    ((download_loop nm sp oracle m a fs c s tr).ok = false →
       (download_loop nm sp oracle m a fs c s tr).fs (.part nm) = none ∧
       (download_loop nm sp oracle m a fs c s tr).fs (.inprog nm)
         = fs (.inprog nm)) := by
  intro a fs c s tr
  induction a, fs, c, s, tr using download_loop.induct nm sp oracle m with
  | case1 a fs c s tr ha ho fsp hlt ih =>
    have hfsp : fsp = fs.wr (FKey.part nm) none := rfl
    rw [hfsp] at ih
    rw [download_loop_conn_retry nm sp oracle m a fs c s tr hlt ho]
    obtain ⟨ih1, ih2, ih3, ih4⟩ := ih
    refine ⟨?_, ?_, ?_, ?_⟩
    · intro k h1 h2
      rw [ih1 k h1 h2]
      exact FS.wr_other fs (FKey.part nm) k none h1
    · intro g hg
      rcases ih2 g hg with hin | hoff
      · rw [List.mem_append] at hin
        rcases hin with hin | hin
        · exact Or.inl hin
        · refine Or.inr fun k h1 h2 => ?_
          rw [List.mem_singleton] at hin
          subst hin
          exact FS.wr_other fs (FKey.part nm) k none h1
      · refine Or.inr fun k h1 h2 => ?_
        rw [hoff k h1 h2]
        exact FS.wr_other fs (FKey.part nm) k none h1
    · intro hok ham
      obtain ⟨i, st, cl, chunks, hi1, hi2, hor, hr1, hr2, hfi, hsz, hfp⟩ :=
        ih3 hok (by omega)
      exact ⟨i, st, cl, chunks, by omega, hi2, hor, hr1, hr2, hfi, hsz, hfp⟩
    · intro hok
      obtain ⟨hp, hi⟩ := ih4 hok
      refine ⟨hp, hi.trans ?_⟩
      exact FS.wr_other fs (FKey.part nm) (FKey.inprog nm) none (by simp)
  | case2 a fs c s tr ha ho hlt =>
    rw [download_loop_conn_last nm sp oracle m a fs c s tr ha hlt ho]
    refine ⟨?_, ?_, ?_, ?_⟩
    · intro k h1 h2
      exact FS.wr_other fs (FKey.part nm) k none h1
    · intro g hg
      rw [List.mem_append] at hg
      rcases hg with hg | hg
      · exact Or.inl hg
      · refine Or.inr fun k h1 h2 => ?_
        rw [List.mem_singleton] at hg
        subst hg
        exact FS.wr_other fs (FKey.part nm) k none h1
    · intro hok
      simp at hok
    · intro _
      exact ⟨FS.wr_same fs (FKey.part nm) none,
        FS.wr_other fs (FKey.part nm) (FKey.inprog nm) none (by simp)⟩
  | case3 a fs c s tr ha st cl chunks intr ho hcond ih =>
    rw [download_loop_status_retry nm sp oracle m a fs c s tr st cl chunks
      intr hcond.2 ho hcond.1]
    obtain ⟨ih1, ih2, ih3, ih4⟩ := ih
    refine ⟨ih1, ih2, ?_, ih4⟩
    intro hok ham
    obtain ⟨i, st2, cl2, chunks2, hi1, hi2, hor, hr1, hr2, hfi, hsz, hfp⟩ :=
      ih3 hok (by omega)
    exact ⟨i, st2, cl2, chunks2, by omega, hi2, hor, hr1, hr2, hfi, hsz, hfp⟩
  | case4 a fs c s tr ha st cl chunks intr ho hcond hrs fsp hlt ih =>
    have hst : dl_retry_status st = false := by
      rcases Bool.eq_false_or_eq_true (dl_retry_status st) with h | h
      · exact absurd ⟨h, hlt⟩ hcond
      · exact h
    have hfsp : fsp = fs.wr (FKey.part nm) none := rfl
    rw [hfsp] at ih
    rw [download_loop_raises_retry nm sp oracle m a fs c s tr st cl chunks
      intr hlt ho hst hrs]
    obtain ⟨ih1, ih2, ih3, ih4⟩ := ih
    refine ⟨?_, ?_, ?_, ?_⟩
    · intro k h1 h2
      rw [ih1 k h1 h2]
      exact FS.wr_other fs (FKey.part nm) k none h1
    · intro g hg
      rcases ih2 g hg with hin | hoff
      · rw [List.mem_append] at hin
        rcases hin with hin | hin
        · exact Or.inl hin
        · refine Or.inr fun k h1 h2 => ?_
          rw [List.mem_singleton] at hin
          subst hin
          exact FS.wr_other fs (FKey.part nm) k none h1
      · refine Or.inr fun k h1 h2 => ?_
        rw [hoff k h1 h2]
        exact FS.wr_other fs (FKey.part nm) k none h1
    · intro hok ham
      obtain ⟨i, st2, cl2, chunks2, hi1, hi2, hor, hr1, hr2, hfi, hsz, hfp⟩ :=
        ih3 hok (by omega)
      exact ⟨i, st2, cl2, chunks2, by omega, hi2, hor, hr1, hr2, hfi, hsz, hfp⟩
    · intro hok
      obtain ⟨hp, hi⟩ := ih4 hok
      refine ⟨hp, hi.trans ?_⟩
      exact FS.wr_other fs (FKey.part nm) (FKey.inprog nm) none (by simp)
  | case5 a fs c s tr ha st cl chunks intr ho hcond hrs hlt =>
    rw [download_loop_raises_last nm sp oracle m a fs c s tr st cl chunks
      intr ha hlt ho hrs]
    refine ⟨?_, ?_, ?_, ?_⟩
    · intro k h1 h2
      exact FS.wr_other fs (FKey.part nm) k none h1
    · intro g hg
      rw [List.mem_append] at hg
      rcases hg with hg | hg
      · exact Or.inl hg
      · refine Or.inr fun k h1 h2 => ?_
        rw [List.mem_singleton] at hg
        subst hg
        exact FS.wr_other fs (FKey.part nm) k none h1
    · intro hok
      simp at hok
    · intro _
      exact ⟨FS.wr_same fs (FKey.part nm) none,
        FS.wr_other fs (FKey.part nm) (FKey.inprog nm) none (by simp)⟩
  | case6 a fs c s tr ha st cl chunks hcond hrs d states fsp hlt ho ih =>
    have hrs2 : raises_for_status st = false := by
      rcases Bool.eq_false_or_eq_true (raises_for_status st) with h | h
      · exact absurd h hrs
      · exact h
    have hfsp : fsp = fs.wr (FKey.part nm) none := rfl
    have hstates : states = chunkStates fs nm chunks (min d chunks.length) :=
      rfl
    rw [hfsp, hstates] at ih
    rw [download_loop_intr_retry nm sp oracle m a fs c s tr st cl chunks d
      hlt ho hrs2]
    obtain ⟨ih1, ih2, ih3, ih4⟩ := ih
    refine ⟨?_, ?_, ?_, ?_⟩
    · intro k h1 h2
      rw [ih1 k h1 h2]
      exact FS.wr_other fs (FKey.part nm) k none h1
    · intro g hg
      rcases ih2 g hg with hin | hoff
      · rw [List.append_assoc, List.mem_append] at hin
        rcases hin with hin | hin
        · exact Or.inl hin
        · refine Or.inr fun k h1 h2 => ?_
          rw [List.mem_append] at hin
          rcases hin with hin | hin
          · obtain ⟨j, rfl⟩ := chunkStates_mem fs nm chunks _ g hin
            exact FS.wr_other fs (FKey.part nm) k _ h1
          · rw [List.mem_singleton] at hin
            subst hin
            exact FS.wr_other fs (FKey.part nm) k none h1
      · refine Or.inr fun k h1 h2 => ?_
        rw [hoff k h1 h2]
        exact FS.wr_other fs (FKey.part nm) k none h1
    · intro hok ham
      obtain ⟨i, st2, cl2, chunks2, hi1, hi2, hor, hr1, hr2, hfi, hsz, hfp⟩ :=
        ih3 hok (by omega)
      exact ⟨i, st2, cl2, chunks2, by omega, hi2, hor, hr1, hr2, hfi, hsz, hfp⟩
    · intro hok
      obtain ⟨hp, hi⟩ := ih4 hok
      refine ⟨hp, hi.trans ?_⟩
      exact FS.wr_other fs (FKey.part nm) (FKey.inprog nm) none (by simp)
  | case7 a fs c s tr ha st cl chunks hcond hrs d hlt ho =>
    have hrs2 : raises_for_status st = false := by
      rcases Bool.eq_false_or_eq_true (raises_for_status st) with h | h
      · exact absurd h hrs
      · exact h
    rw [download_loop_intr_last nm sp oracle m a fs c s tr st cl chunks d
      ha hlt ho hrs2]
    refine ⟨?_, ?_, ?_, ?_⟩
    · intro k h1 h2
      exact FS.wr_other fs (FKey.part nm) k none h1
    · intro g hg
      rw [List.append_assoc, List.mem_append] at hg
      rcases hg with hg | hg
      · exact Or.inl hg
      · refine Or.inr fun k h1 h2 => ?_
        rw [List.mem_append] at hg
        rcases hg with hg | hg
        · obtain ⟨j, rfl⟩ := chunkStates_mem fs nm chunks _ g hg
          exact FS.wr_other fs (FKey.part nm) k _ h1
        · rw [List.mem_singleton] at hg
          subst hg
          exact FS.wr_other fs (FKey.part nm) k none h1
    · intro hok
      simp at hok
    · intro _
      exact ⟨FS.wr_same fs (FKey.part nm) none,
        FS.wr_other fs (FKey.part nm) (FKey.inprog nm) none (by simp)⟩
  | case8 a fs c s tr ha st cl chunks hcond hrs body states mis hmis fsp hlt
      ho ih =>
    have hrs2 : raises_for_status st = false := by
      rcases Bool.eq_false_or_eq_true (raises_for_status st) with h | h
      · exact absurd h hrs
      · exact h
    have hmis2 : (match parse_expected_size sp none with
        | some n => chunks.flatten.length != n
        | none => false) = true := hmis
    obtain ⟨n, hn, hlen⟩ : ∃ n, parse_expected_size sp none = some n ∧
        chunks.flatten.length ≠ n := by
      cases hp : parse_expected_size sp none with
      | none => rw [hp] at hmis2; simp at hmis2
      | some n =>
        rw [hp] at hmis2
        simp only [bne_iff_ne] at hmis2
        exact ⟨n, rfl, hmis2⟩
    have hfsp : fsp = fs.wr (FKey.part nm) none := rfl
    have hstates : states = chunkStates fs nm chunks chunks.length := rfl
    rw [hfsp, hstates] at ih
    rw [download_loop_mismatch_retry nm sp oracle m a fs c s tr st cl chunks
      n hlt ho (not_raises_not_retry st hrs2) hrs2 hn hlen]
    obtain ⟨ih1, ih2, ih3, ih4⟩ := ih
    refine ⟨?_, ?_, ?_, ?_⟩
    · intro k h1 h2
      rw [ih1 k h1 h2]
      exact FS.wr_other fs (FKey.part nm) k none h1
    · intro g hg
      rcases ih2 g hg with hin | hoff
      · rw [List.append_assoc, List.mem_append] at hin
        rcases hin with hin | hin
        · exact Or.inl hin
        · refine Or.inr fun k h1 h2 => ?_
          rw [List.mem_append] at hin
          rcases hin with hin | hin
          · obtain ⟨j, rfl⟩ := chunkStates_mem fs nm chunks _ g hin
            exact FS.wr_other fs (FKey.part nm) k _ h1
          · rw [List.mem_singleton] at hin
            subst hin
            exact FS.wr_other fs (FKey.part nm) k none h1
      · refine Or.inr fun k h1 h2 => ?_
        rw [hoff k h1 h2]
        exact FS.wr_other fs (FKey.part nm) k none h1
    · intro hok ham
      obtain ⟨i, st2, cl2, chunks2, hi1, hi2, hor, hr1, hr2, hfi, hsz, hfp⟩ :=
        ih3 hok (by omega)
      exact ⟨i, st2, cl2, chunks2, by omega, hi2, hor, hr1, hr2, hfi, hsz, hfp⟩
    · intro hok
      obtain ⟨hp, hi⟩ := ih4 hok
      refine ⟨hp, hi.trans ?_⟩
      exact FS.wr_other fs (FKey.part nm) (FKey.inprog nm) none (by simp)
  | case9 a fs c s tr ha st cl chunks hcond hrs body mis hmis hlt ho =>
    have hrs2 : raises_for_status st = false := by
      rcases Bool.eq_false_or_eq_true (raises_for_status st) with h | h
      · exact absurd h hrs
      · exact h
    have hmis2 : (match parse_expected_size sp none with
        | some n => chunks.flatten.length != n
        | none => false) = true := hmis
    obtain ⟨n, hn, hlen⟩ : ∃ n, parse_expected_size sp none = some n ∧
        chunks.flatten.length ≠ n := by
      cases hp : parse_expected_size sp none with
      | none => rw [hp] at hmis2; simp at hmis2
      | some n =>
        rw [hp] at hmis2
        simp only [bne_iff_ne] at hmis2
        exact ⟨n, rfl, hmis2⟩
    rw [download_loop_mismatch_last nm sp oracle m a fs c s tr st cl chunks
      n ha hlt ho hrs2 hn hlen]
    refine ⟨?_, ?_, ?_, ?_⟩
    · intro k h1 h2
      exact FS.wr_other fs (FKey.part nm) k none h1
    · intro g hg
      rw [List.append_assoc, List.mem_append] at hg
      rcases hg with hg | hg
      · exact Or.inl hg
      · refine Or.inr fun k h1 h2 => ?_
        rw [List.mem_append] at hg
        rcases hg with hg | hg
        · obtain ⟨j, rfl⟩ := chunkStates_mem fs nm chunks _ g hg
          exact FS.wr_other fs (FKey.part nm) k _ h1
        · rw [List.mem_singleton] at hg
          subst hg
          exact FS.wr_other fs (FKey.part nm) k none h1
    · intro hok
      simp at hok
    · intro _
      exact ⟨FS.wr_same fs (FKey.part nm) none,
        FS.wr_other fs (FKey.part nm) (FKey.inprog nm) none (by simp)⟩
  | case10 a fs c s tr ha st cl chunks hcond hrs body mis hmis ho =>
    have hrs2 : raises_for_status st = false := by
      rcases Bool.eq_false_or_eq_true (raises_for_status st) with h | h
      · exact absurd h hrs
      · exact h
    have hmis2 : (match parse_expected_size sp none with
        | some n => chunks.flatten.length != n
        | none => false) = false := by
      rcases Bool.eq_false_or_eq_true mis with h | h
      · exact absurd h hmis
      · exact h
    have hsz : ∀ n, parse_expected_size sp none = some n →
        chunks.flatten.length = n := by
      intro n hp
      rw [hp] at hmis2
      simpa using hmis2
    rw [download_loop_commit nm sp oracle m a fs c s tr st cl chunks ha ho
      (not_raises_not_retry st hrs2) hrs2 hsz]
    refine ⟨?_, ?_, ?_, ?_⟩
    · intro k h1 h2
      show ((fs.wr (FKey.part nm) none).wr (FKey.inprog nm)
        (some chunks.flatten)) k = fs k
      rw [FS.wr_other _ (FKey.inprog nm) k _ h2]
      exact FS.wr_other fs (FKey.part nm) k none h1
    · intro g hg
      rw [List.append_assoc, List.mem_append] at hg
      rcases hg with hg | hg
      · exact Or.inl hg
      · refine Or.inr fun k h1 h2 => ?_
        rw [List.mem_append] at hg
        rcases hg with hg | hg
        · obtain ⟨j, rfl⟩ := chunkStates_mem fs nm chunks _ g hg
          exact FS.wr_other fs (FKey.part nm) k _ h1
        · rw [List.mem_singleton] at hg
          subst hg
          rw [FS.wr_other _ (FKey.inprog nm) k _ h2]
          exact FS.wr_other fs (FKey.part nm) k none h1
    · intro _ ham
      refine ⟨a, st, cl, chunks, le_rfl, ha, ho,
        not_raises_not_retry st hrs2, hrs2, ?_, hsz, ?_⟩
      · exact FS.wr_same _ (FKey.inprog nm) _
      · show ((fs.wr (FKey.part nm) none).wr (FKey.inprog nm)
          (some chunks.flatten)) (FKey.part nm) = none
        rw [FS.wr_other _ (FKey.inprog nm) (FKey.part nm) _ (by simp)]
        exact FS.wr_same fs (FKey.part nm) none
    · intro hok
      simp at hok
  | case11 a fs c s tr ha =>
    rw [download_loop_base nm sp oracle m a fs c s tr ha]
    refine ⟨fun k _ _ => rfl, fun g hg => Or.inl hg, ?_, ?_⟩
    · intro _ ham
      exact absurd ham ha
    · intro hok
      simp at hok

/-- The retry loop's decisions depend only on the oracle, never on the
starting filesystem: two runs from different filesystems agree on success,
on the number of network calls made, and — on success within the attempt
budget — on the contents committed to `dest`. -/
theorem download_loop_det (nm : String) (sp : Option ℕ)
    (oracle : ℕ → DlAttempt) (m : ℕ) :
    ∀ (a : ℕ) (fs : FS) (c s : ℕ) (tr : List FS),
    ∀ (g : FS) (c2 s2 : ℕ) (tr2 : List FS),
    (download_loop nm sp oracle m a fs c s tr).ok
      = (download_loop nm sp oracle m a g c2 s2 tr2).ok ∧
    (download_loop nm sp oracle m a fs c s tr).calls + c2
      = (download_loop nm sp oracle m a g c2 s2 tr2).calls + c ∧
    ((download_loop nm sp oracle m a fs c s tr).ok = true → a ≤ m →
      (download_loop nm sp oracle m a fs c s tr).fs (.inprog nm)
        = (download_loop nm sp oracle m a g c2 s2 tr2).fs (.inprog nm)) := by
  intro a fs c s tr
  induction a, fs, c, s, tr using download_loop.induct nm sp oracle m with
  | case1 a fs c s tr ha ho fsp hlt ih =>
    intro g c2 s2 tr2
    have hfsp : fsp = fs.wr (FKey.part nm) none := rfl
    rw [hfsp] at ih
    rw [download_loop_conn_retry nm sp oracle m a fs c s tr hlt ho,
      download_loop_conn_retry nm sp oracle m a g c2 s2 tr2 hlt ho]
    obtain ⟨e1, e2, e3⟩ := ih (g.wr (FKey.part nm) none) (c2 + 1) (s2 + 1)
      (tr2 ++ [g.wr (FKey.part nm) none])
    exact ⟨e1, by omega, fun hok ham => e3 hok (by omega)⟩
  | case2 a fs c s tr ha ho hlt =>
    intro g c2 s2 tr2
    rw [download_loop_conn_last nm sp oracle m a fs c s tr ha hlt ho,
      download_loop_conn_last nm sp oracle m a g c2 s2 tr2 ha hlt ho]
    exact ⟨rfl, by show c + 1 + c2 = c2 + 1 + c; omega,
      fun hok _ => by simp at hok⟩
  | case3 a fs c s tr ha st cl chunks intr ho hcond ih =>
    intro g c2 s2 tr2
    rw [download_loop_status_retry nm sp oracle m a fs c s tr st cl chunks
      intr hcond.2 ho hcond.1,
      download_loop_status_retry nm sp oracle m a g c2 s2 tr2 st cl chunks
      intr hcond.2 ho hcond.1]
    obtain ⟨e1, e2, e3⟩ := ih g (c2 + 1) (s2 + 1) tr2
    exact ⟨e1, by omega, fun hok ham => e3 hok (by omega)⟩
  | case4 a fs c s tr ha st cl chunks intr ho hcond hrs fsp hlt ih =>
    intro g c2 s2 tr2
    have hst : dl_retry_status st = false := by
      rcases Bool.eq_false_or_eq_true (dl_retry_status st) with h | h
      · exact absurd ⟨h, hlt⟩ hcond
      · exact h
    rw [download_loop_raises_retry nm sp oracle m a fs c s tr st cl chunks
      intr hlt ho hst hrs,
      download_loop_raises_retry nm sp oracle m a g c2 s2 tr2 st cl chunks
      intr hlt ho hst hrs]
    have hfsp : fsp = fs.wr (FKey.part nm) none := rfl
    rw [hfsp] at ih
    obtain ⟨e1, e2, e3⟩ := ih (g.wr (FKey.part nm) none) (c2 + 1) (s2 + 1)
      (tr2 ++ [g.wr (FKey.part nm) none])
    exact ⟨e1, by omega, fun hok ham => e3 hok (by omega)⟩
  | case5 a fs c s tr ha st cl chunks intr ho hcond hrs hlt =>
    intro g c2 s2 tr2
    rw [download_loop_raises_last nm sp oracle m a fs c s tr st cl chunks
      intr ha hlt ho hrs,
      download_loop_raises_last nm sp oracle m a g c2 s2 tr2 st cl chunks
      intr ha hlt ho hrs]
    exact ⟨rfl, by show c + 1 + c2 = c2 + 1 + c; omega,
      fun hok _ => by simp at hok⟩
  | case6 a fs c s tr ha st cl chunks hcond hrs d states fsp hlt ho ih =>
    intro g c2 s2 tr2
    have hrs2 : raises_for_status st = false := by
      rcases Bool.eq_false_or_eq_true (raises_for_status st) with h | h
      · exact absurd h hrs
      · exact h
    rw [download_loop_intr_retry nm sp oracle m a fs c s tr st cl chunks d
      hlt ho hrs2,
      download_loop_intr_retry nm sp oracle m a g c2 s2 tr2 st cl chunks d
      hlt ho hrs2]
    have hfsp : fsp = fs.wr (FKey.part nm) none := rfl
    have hstates : states = chunkStates fs nm chunks (min d chunks.length) :=
      rfl
    rw [hfsp, hstates] at ih
    obtain ⟨e1, e2, e3⟩ := ih (g.wr (FKey.part nm) none) (c2 + 1) (s2 + 1)
      (tr2 ++ chunkStates g nm chunks (min d chunks.length)
        ++ [g.wr (FKey.part nm) none])
    exact ⟨e1, by omega, fun hok ham => e3 hok (by omega)⟩
  | case7 a fs c s tr ha st cl chunks hcond hrs d hlt ho =>
    intro g c2 s2 tr2
    have hrs2 : raises_for_status st = false := by
      rcases Bool.eq_false_or_eq_true (raises_for_status st) with h | h
      · exact absurd h hrs
      · exact h
    rw [download_loop_intr_last nm sp oracle m a fs c s tr st cl chunks d
      ha hlt ho hrs2,
      download_loop_intr_last nm sp oracle m a g c2 s2 tr2 st cl chunks d
      ha hlt ho hrs2]
    exact ⟨rfl, by show c + 1 + c2 = c2 + 1 + c; omega,
      fun hok _ => by simp at hok⟩
  | case8 a fs c s tr ha st cl chunks hcond hrs body states mis hmis fsp hlt
      ho ih =>
    intro g c2 s2 tr2
    have hrs2 : raises_for_status st = false := by
      rcases Bool.eq_false_or_eq_true (raises_for_status st) with h | h
      · exact absurd h hrs
      · exact h
    have hmis2 : (match parse_expected_size sp none with
        | some n => chunks.flatten.length != n
        | none => false) = true := hmis
    obtain ⟨n, hn, hlen⟩ : ∃ n, parse_expected_size sp none = some n ∧
        chunks.flatten.length ≠ n := by
      cases hp : parse_expected_size sp none with
      | none => rw [hp] at hmis2; simp at hmis2
      | some n =>
        rw [hp] at hmis2
        simp only [bne_iff_ne] at hmis2
        exact ⟨n, rfl, hmis2⟩
    rw [download_loop_mismatch_retry nm sp oracle m a fs c s tr st cl chunks
      n hlt ho (not_raises_not_retry st hrs2) hrs2 hn hlen,
      download_loop_mismatch_retry nm sp oracle m a g c2 s2 tr2 st cl chunks
      n hlt ho (not_raises_not_retry st hrs2) hrs2 hn hlen]
    have hfsp : fsp = fs.wr (FKey.part nm) none := rfl
    have hstates : states = chunkStates fs nm chunks chunks.length := rfl
    rw [hfsp, hstates] at ih
    obtain ⟨e1, e2, e3⟩ := ih (g.wr (FKey.part nm) none) (c2 + 1) (s2 + 1)
      (tr2 ++ chunkStates g nm chunks chunks.length
        ++ [g.wr (FKey.part nm) none])
    exact ⟨e1, by omega, fun hok ham => e3 hok (by omega)⟩
  | case9 a fs c s tr ha st cl chunks hcond hrs body mis hmis hlt ho =>
    intro g c2 s2 tr2
    have hrs2 : raises_for_status st = false := by
      rcases Bool.eq_false_or_eq_true (raises_for_status st) with h | h
      · exact absurd h hrs
      · exact h
    have hmis2 : (match parse_expected_size sp none with
        | some n => chunks.flatten.length != n
        | none => false) = true := hmis
    obtain ⟨n, hn, hlen⟩ : ∃ n, parse_expected_size sp none = some n ∧
        chunks.flatten.length ≠ n := by
      cases hp : parse_expected_size sp none with
      | none => rw [hp] at hmis2; simp at hmis2
      | some n =>
        rw [hp] at hmis2
        simp only [bne_iff_ne] at hmis2
        exact ⟨n, rfl, hmis2⟩
    rw [download_loop_mismatch_last nm sp oracle m a fs c s tr st cl chunks
      n ha hlt ho hrs2 hn hlen,
      download_loop_mismatch_last nm sp oracle m a g c2 s2 tr2 st cl chunks
      n ha hlt ho hrs2 hn hlen]
    exact ⟨rfl, by show c + 1 + c2 = c2 + 1 + c; omega,
      fun hok _ => by simp at hok⟩
  | case10 a fs c s tr ha st cl chunks hcond hrs body mis hmis ho =>
    intro g c2 s2 tr2
    have hrs2 : raises_for_status st = false := by
      rcases Bool.eq_false_or_eq_true (raises_for_status st) with h | h
      · exact absurd h hrs
      · exact h
    have hmis2 : (match parse_expected_size sp none with
        | some n => chunks.flatten.length != n
        | none => false) = false := by
      rcases Bool.eq_false_or_eq_true mis with h | h
      · exact absurd h hmis
      · exact h
    have hsz : ∀ n, parse_expected_size sp none = some n →
        chunks.flatten.length = n := by
      intro n hp
      rw [hp] at hmis2
      simpa using hmis2
    rw [download_loop_commit nm sp oracle m a fs c s tr st cl chunks ha ho
      (not_raises_not_retry st hrs2) hrs2 hsz,
      download_loop_commit nm sp oracle m a g c2 s2 tr2 st cl chunks ha ho
      (not_raises_not_retry st hrs2) hrs2 hsz]
    refine ⟨rfl, by show c + 1 + c2 = c2 + 1 + c; omega, fun _ _ => ?_⟩
    show ((fs.wr (FKey.part nm) none).wr (FKey.inprog nm)
      (some chunks.flatten)) (FKey.inprog nm)
      = ((g.wr (FKey.part nm) none).wr (FKey.inprog nm)
          (some chunks.flatten)) (FKey.inprog nm)
    rw [FS.wr_same, FS.wr_same]
  | case11 a fs c s tr ha =>
    intro g c2 s2 tr2
    rw [download_loop_base nm sp oracle m a fs c s tr ha,
      download_loop_base nm sp oracle m a g c2 s2 tr2 ha]
    exact ⟨rfl, by show c + c2 = c2 + c; omega, fun _ ham => absurd ham ha⟩

/-! ### downloads.py : `job`-level characterization -/

theorem download_job_skip (t : DlTask) (m : ℕ) (fs : FS)
    (h : skip_check t fs = true) :
    download_job t m fs = ⟨fs, true, 0, 0, []⟩ := by
  unfold download_job
  rw [if_pos h]

theorem skip_check_of (t : DlTask) (fs : FS) (n : ℕ) (b : Bytes)
    (hs : t.sizeParam = some n) (hf : fs (.completed t.nm) = some b)
    (hl : b.length = n) : skip_check t fs = true := by
  unfold skip_check
  rw [hs, hf]
  simp [hl]

theorem skip_check_congr (t : DlTask) (fs g : FS)
    (h : fs (.completed t.nm) = g (.completed t.nm)) :
    skip_check t fs = skip_check t g := by
  unfold skip_check
  rw [h]

theorem download_job_succ (t : DlTask) (m : ℕ) (fs : FS) (cb : Bytes)
    (hskip : skip_check t fs = false)
    (hok : (download_loop t.nm t.sizeParam t.oracle m 1 fs 0 0 []).ok = true)
    (hin : (download_loop t.nm t.sizeParam t.oracle m 1 fs 0 0 []).fs
      (.inprog t.nm) = some cb) :
    download_job t m fs =
      ⟨((download_loop t.nm t.sizeParam t.oracle m 1 fs 0 0 []).fs.wr
          (.inprog t.nm) none).wr (.completed t.nm) (some cb), true,
        (download_loop t.nm t.sizeParam t.oracle m 1 fs 0 0 []).calls,
        (download_loop t.nm t.sizeParam t.oracle m 1 fs 0 0 []).sleeps,
        (download_loop t.nm t.sizeParam t.oracle m 1 fs 0 0 []).trace
          ++ [((download_loop t.nm t.sizeParam t.oracle m 1 fs 0 0 []).fs.wr
                (.inprog t.nm) none).wr (.completed t.nm) (some cb)]⟩ := by
  unfold download_job
  rw [if_neg (by simp [hskip])]
  simp only [hok, if_true, hin]

theorem download_job_fail (t : DlTask) (m : ℕ) (fs : FS)
    (hskip : skip_check t fs = false)
    (hok : (download_loop t.nm t.sizeParam t.oracle m 1 fs 0 0 []).ok
      = false) :
    download_job t m fs =
      ⟨(download_loop t.nm t.sizeParam t.oracle m 1 fs 0 0 []).fs, false,
        (download_loop t.nm t.sizeParam t.oracle m 1 fs 0 0 []).calls,
        (download_loop t.nm t.sizeParam t.oracle m 1 fs 0 0 []).sleeps,
        (download_loop t.nm t.sizeParam t.oracle m 1 fs 0 0 []).trace⟩ := by
  unfold download_job
  rw [if_neg (by simp [hskip])]
  simp only [hok, if_false, Bool.false_eq_true]

theorem parse_expected_size_none (sp : Option ℕ) :
    parse_expected_size sp none = sp := by
  cases sp <;> rfl

/-! ### C1 : the completed file is never partial -/

/-- C1: for a download task whose completed-directory destination does not
exist initially, at every point of the job's execution — including every
intermediate filesystem state while bytes are streamed, cleaned up, and
renamed — the destination in the completed directory either does not exist
or holds exactly the full body of a completely streamed attempt, whose length
matches the URL's `size` parameter whenever one is present. -/
theorem completed_never_partial (t : DlTask) (m : ℕ) (fs : FS)
    (hm : 1 ≤ m) (h0 : fs (.completed t.nm) = none) :
    ∀ g ∈ (download_job t m fs).trace ++ [(download_job t m fs).fs],
      g (.completed t.nm) = none ∨
      ∃ i st cl chunks, 1 ≤ i ∧ i ≤ m ∧
        t.oracle i = DlAttempt.resp st cl chunks none ∧
        g (.completed t.nm) = some chunks.flatten ∧
        (∀ n, t.sizeParam = some n → chunks.flatten.length = n) := by
  obtain ⟨m1, m2, m3, m4⟩ :=
    download_loop_master t.nm t.sizeParam t.oracle m 1 fs 0 0 []
  by_cases hskip : skip_check t fs = true
  · rw [download_job_skip t m fs hskip]
    intro g hg
    simp only [List.nil_append, List.mem_singleton] at hg
    subst hg
    exact Or.inl h0
  · rw [Bool.not_eq_true] at hskip
    cases hok : (download_loop t.nm t.sizeParam t.oracle m 1 fs 0 0 []).ok
    · rw [download_job_fail t m fs hskip hok]
      intro g hg
      rw [List.mem_append] at hg
      rcases hg with hg | hg
      · rcases m2 g hg with hin | hoff
        · simp at hin
        · refine Or.inl ?_
          rw [hoff (.completed t.nm) (by simp) (by simp)]
          exact h0
      · rw [List.mem_singleton] at hg
        subst hg
        refine Or.inl ?_
        rw [m1 (.completed t.nm) (by simp) (by simp)]
        exact h0
    · obtain ⟨i, st, cl, chunks, hi1, hi2, hor, hr1, hr2, hfi, hsz, hfp⟩ :=
        m3 hok hm
      rw [download_job_succ t m fs chunks.flatten hskip hok hfi]
      intro g hg
      rw [List.mem_append] at hg
      rcases hg with hg | hg
      · rw [List.mem_append] at hg
        rcases hg with hg | hg
        · rcases m2 g hg with hin | hoff
          · simp at hin
          · refine Or.inl ?_
            rw [hoff (.completed t.nm) (by simp) (by simp)]
            exact h0
        · rw [List.mem_singleton] at hg
          subst hg
          refine Or.inr ⟨i, st, cl, chunks, hi1, hi2, hor, ?_, ?_⟩
          · exact FS.wr_same _ (FKey.completed t.nm) _
          · intro n hn
            refine hsz n ?_
            rw [parse_expected_size_none, hn]
      · rw [List.mem_singleton] at hg
        subst hg
        refine Or.inr ⟨i, st, cl, chunks, hi1, hi2, hor, ?_, ?_⟩
        · exact FS.wr_same _ (FKey.completed t.nm) _
        · intro n hn
          refine hsz n ?_
          rw [parse_expected_size_none, hn]

/-- The task used by the C1 witness: `?size=2`, one attempt streaming two
bytes. -/
def taskC1 : DlTask :=
  ⟨"f.zip", some 2, fun _ => DlAttempt.resp 200 none [[7, 8]] none⟩

/-- Concrete instance of the C1 theorem, at the final filesystem of a task
whose single attempt streams `[7, 8]` with `?size=2`, over the empty
filesystem. -/
theorem completed_never_partial_witness :
    (download_job taskC1 5 (fun _ => none)).fs (.completed taskC1.nm) = none
    ∨ ∃ i st cl chunks, 1 ≤ i ∧ i ≤ 5 ∧
      taskC1.oracle i = DlAttempt.resp st cl chunks none ∧
      (download_job taskC1 5 (fun _ => none)).fs (.completed taskC1.nm)
        = some chunks.flatten ∧
      (∀ n, taskC1.sizeParam = some n → chunks.flatten.length = n) :=
  completed_never_partial taskC1 5 (fun _ => none) (by norm_num) rfl
    (download_job taskC1 5 (fun _ => none)).fs
    (List.mem_append_right _ (by simp))

/-! ### C6 : the post-stream size check -/

/-- The task used by the C6 counterexample: no `size` query parameter, one
attempt whose response carries `Content-Length: 10` but streams 5 bytes. -/
def taskC6 : DlTask :=
  ⟨"f.zip", none, fun _ => DlAttempt.resp 200 (some 10) [[1, 2, 3, 4, 5]]
    none⟩

/-- C6, counterexample: the claim says the expected size may be determined
from the response's `Content-Length` and a mismatching stream must raise an
integrity error consuming a retry.  On the code the post-stream check calls
`_parse_expected_size(url, None)`, so with no `size` query parameter the
expected size from `Content-Length` (10) is ignored: the 5-byte stream is
committed successfully. -/
theorem size_check_counterexample :
    parse_expected_size taskC6.sizeParam (some (some 10)) = some 10 ∧
    (download_job taskC6 5 (fun _ => none)).ok = true ∧
    (download_job taskC6 5 (fun _ => none)).fs (.completed taskC6.nm)
      = some [1, 2, 3, 4, 5] ∧
    ([1, 2, 3, 4, 5] : Bytes).length ≠ 10 := by
  have hcommit := download_loop_commit taskC6.nm taskC6.sizeParam
    taskC6.oracle 5 1 (fun _ => none) 0 0 [] 200 (some 10) [[1, 2, 3, 4, 5]]
    (by norm_num) rfl (by decide) (by decide)
    (fun n hp => by simp [taskC6, parse_expected_size] at hp)
  have hok : (download_loop taskC6.nm taskC6.sizeParam taskC6.oracle 5 1
      (fun _ => none) 0 0 []).ok = true := by
    rw [hcommit]
  have hin : (download_loop taskC6.nm taskC6.sizeParam taskC6.oracle 5 1
      (fun _ => none) 0 0 []).fs (.inprog taskC6.nm)
      = some ([[1, 2, 3, 4, 5]] : List Bytes).flatten := by
    rw [hcommit]
    show ((FS.wr (fun _ => none) (.part taskC6.nm) none).wr
      (.inprog taskC6.nm) (some ([[1, 2, 3, 4, 5]] : List Bytes).flatten))
      (.inprog taskC6.nm) = some ([[1, 2, 3, 4, 5]] : List Bytes).flatten
    exact FS.wr_same _ _ _
  have hflat : ([[1, 2, 3, 4, 5]] : List Bytes).flatten = [1, 2, 3, 4, 5] :=
    by simp
  rw [hflat] at hin
  have hjob := download_job_succ taskC6 5 (fun _ => none) [1, 2, 3, 4, 5]
    rfl hok hin
  refine ⟨rfl, ?_, ?_, by simp⟩
  · rw [hjob]
  · rw [hjob]
    show (((download_loop taskC6.nm taskC6.sizeParam taskC6.oracle 5 1
      (fun _ => none) 0 0 []).fs.wr (.inprog taskC6.nm) none).wr
      (.completed taskC6.nm) (some [1, 2, 3, 4, 5])) (.completed taskC6.nm)
      = some [1, 2, 3, 4, 5]
    exact FS.wr_same _ _ _

/-- C6 (amended): the verified expected size is the URL's `size` query
parameter only (`_parse_expected_size(url, None)`); when it is present, (1) a
task that succeeds leaves a completed file of exactly that many bytes, (2) a
completed stream of the wrong length on an attempt with retries remaining
deletes the temp file, sleeps, and consumes exactly one retry, and (3) on the
last attempt it fails the task. -/
theorem size_check_amended :
    (∀ (t : DlTask) (m : ℕ) (fs : FS) (n : ℕ), 1 ≤ m →
      t.sizeParam = some n → (download_job t m fs).ok = true →
      ∃ b, (download_job t m fs).fs (.completed t.nm) = some b ∧
        b.length = n) ∧
    (∀ (nm : String) (sp : Option ℕ) (oracle : ℕ → DlAttempt)
      (m a : ℕ) (fs : FS) (c s : ℕ) (tr : List FS) (st : ℕ)
      (cl : Option ℕ) (chunks : List Bytes) (n : ℕ), a < m →
      oracle a = DlAttempt.resp st cl chunks none →
      raises_for_status st = false → sp = some n →
      chunks.flatten.length ≠ n →
      download_loop nm sp oracle m a fs c s tr
        = download_loop nm sp oracle m (a + 1) (fs.wr (.part nm) none)
            (c + 1) (s + 1) (tr ++ chunkStates fs nm chunks chunks.length
              ++ [fs.wr (.part nm) none]) ∧
      (fs.wr (.part nm) none) (.part nm) = none) ∧
    (∀ (nm : String) (sp : Option ℕ) (oracle : ℕ → DlAttempt)
      (m a : ℕ) (fs : FS) (c s : ℕ) (tr : List FS) (st : ℕ)
      (cl : Option ℕ) (chunks : List Bytes) (n : ℕ), a ≤ m → ¬ a < m →
      oracle a = DlAttempt.resp st cl chunks none →
      raises_for_status st = false → sp = some n →
      chunks.flatten.length ≠ n →
      (download_loop nm sp oracle m a fs c s tr).ok = false) := by
  refine ⟨?_, ?_, ?_⟩
  · intro t m fs n hm hsp hok
    by_cases hskip : skip_check t fs = true
    · rw [download_job_skip t m fs hskip]
      unfold skip_check at hskip
      rw [hsp] at hskip
      cases hc : fs (.completed t.nm) with
      | none => rw [hc] at hskip; simp at hskip
      | some b =>
        rw [hc] at hskip
        simp only [beq_iff_eq] at hskip
        exact ⟨b, hc, hskip⟩
    · rw [Bool.not_eq_true] at hskip
      obtain ⟨m1, m2, m3, m4⟩ :=
        download_loop_master t.nm t.sizeParam t.oracle m 1 fs 0 0 []
      cases hlok : (download_loop t.nm t.sizeParam t.oracle m 1 fs 0 0 []).ok
      · rw [download_job_fail t m fs hskip hlok] at hok
        simp at hok
      · obtain ⟨i, st, cl, chunks, hi1, hi2, hor, hr1, hr2, hfi, hsz, hfp⟩ :=
          m3 hlok hm
        rw [download_job_succ t m fs chunks.flatten hskip hlok hfi]
        refine ⟨chunks.flatten, FS.wr_same _ _ _, ?_⟩
        refine hsz n ?_
        rw [parse_expected_size_none, hsp]
  · intro nm sp oracle m a fs c s tr st cl chunks n hlt ho hrs hsp hlen
    have hn : parse_expected_size sp none = some n := by
      rw [parse_expected_size_none, hsp]
    refine ⟨download_loop_mismatch_retry nm sp oracle m a fs c s tr st cl
      chunks n hlt ho (not_raises_not_retry st hrs) hrs hn hlen,
      FS.wr_same fs (FKey.part nm) none⟩
  · intro nm sp oracle m a fs c s tr st cl chunks n ha hlt ho hrs hsp hlen
    have hn : parse_expected_size sp none = some n := by
      rw [parse_expected_size_none, hsp]
    rw [download_loop_mismatch_last nm sp oracle m a fs c s tr st cl chunks
      n ha hlt ho hrs hn hlen]

/-- Concrete instance of the C6 amended theorem: a one-byte stream against
`?size=3` on attempt 1 of 5 deletes the temp file and moves to attempt 2. -/
theorem size_check_amended_witness :
    download_loop "w" (some 3) (fun _ => DlAttempt.resp 200 none [[9]] none)
        5 1 (fun _ => none) 0 0 []
      = download_loop "w" (some 3)
          (fun _ => DlAttempt.resp 200 none [[9]] none) 5 2
          (FS.wr (fun _ => none) (.part "w") none) 1 1
          ([] ++ chunkStates (fun _ => none) "w" [[9]] 1
            ++ [FS.wr (fun _ => none) (.part "w") none]) :=
  (size_check_amended.2.1 "w" (some 3)
    (fun _ => DlAttempt.resp 200 none [[9]] none) 5 1 (fun _ => none) 0 0 []
    200 none [[9]] 3 (by norm_num) rfl (by decide) rfl (by simp)).1

/-! ### C7 : retry policy for transient network errors -/

/-- C7, counterexample: the claim says a connection error in the buffered
request executor with attempts remaining is retried after a backoff sleep.
On the code `_request_with_retries` has no exception handler around
`prepare_request`, so a transport error on attempt 1 of 5 propagates
immediately: no sleep, no further attempt. -/
theorem executor_conn_error_propagates :
    request_with_retries (fun _ => (Except.error () : ReqAttempt)) 5
      = ⟨.error (), 1, 0⟩ ∧ (1 : ℕ) < 5 := by
  refine ⟨?_, by norm_num⟩
  unfold request_with_retries
  exact request_loop_err (fun _ => (Except.error () : ReqAttempt)) 5 1 0 (by norm_num)
    rfl

/-- C7 (amended): an HTTP 429 or 5xx with attempts remaining triggers a
backoff sleep and a retry in both retry layers; in the per-task download
loop a connection error is likewise cleaned up, slept on and retried; only
when the retry cap is exhausted is the failure surfaced — the executor then
returns the last failing response and the download loop fails the task.
(In the executor a transport error is not retried; it propagates.) -/
theorem transient_retry_policy :
    (∀ (oracle : ℕ → ReqAttempt) (max_retries a s : ℕ) (r : Resp),
      a < max_retries → oracle a = .ok r →
      req_success r.statusCode = false → req_retryable r.statusCode = true →
      request_loop oracle max_retries a s
        = request_loop oracle max_retries (a + 1) (s + 1)) ∧
    (∀ (oracle : ℕ → ReqAttempt) (max_retries : ℕ), 1 ≤ max_retries →
      (∀ i, 1 ≤ i → i ≤ max_retries → ∃ r, oracle i = .ok r ∧
        req_success r.statusCode = false ∧
        req_retryable r.statusCode = true) →
      ∃ r, request_with_retries oracle max_retries
          = ⟨.ok (some r), max_retries, max_retries - 1⟩ ∧
        req_success r.statusCode = false ∧
        req_retryable r.statusCode = true) ∧
    (∀ (nm : String) (sp : Option ℕ) (oracle : ℕ → DlAttempt) (m a : ℕ)
      (fs : FS) (c s : ℕ) (tr : List FS),
      a < m → oracle a = DlAttempt.connError →
      download_loop nm sp oracle m a fs c s tr
        = download_loop nm sp oracle m (a + 1) (fs.wr (.part nm) none)
            (c + 1) (s + 1) (tr ++ [fs.wr (.part nm) none])) ∧
    (∀ (nm : String) (sp : Option ℕ) (oracle : ℕ → DlAttempt) (m a : ℕ)
      (fs : FS) (c s : ℕ) (tr : List FS) (st : ℕ) (cl : Option ℕ)
      (chunks : List Bytes) (intr : Option ℕ),
      a < m → oracle a = DlAttempt.resp st cl chunks intr →
      dl_retry_status st = true →
      download_loop nm sp oracle m a fs c s tr
        = download_loop nm sp oracle m (a + 1) fs (c + 1) (s + 1) tr) ∧
    (∀ (nm : String) (sp : Option ℕ) (oracle : ℕ → DlAttempt) (m : ℕ)
      (fs : FS), 1 ≤ m →
      (∀ i, 1 ≤ i → i ≤ m → oracle i = DlAttempt.connError ∨
        ∃ st cl chunks intr, oracle i = DlAttempt.resp st cl chunks intr ∧
          dl_retry_status st = true) →
      (download_loop nm sp oracle m 1 fs 0 0 []).ok = false) := by
  refine ⟨?_, ?_, ?_, ?_, ?_⟩
  · intro oracle max_retries a s r hlt ho hs hret
    exact request_loop_retry oracle max_retries a s r hlt ho hs hret
  · intro oracle max_retries hm hall
    obtain ⟨r, hr, hs, hret⟩ := hall max_retries hm le_rfl
    refine ⟨r, ?_, hs, hret⟩
    unfold request_with_retries
    have hskip := request_loop_skip oracle max_retries (max_retries - 1) 1 0
      (by omega) (fun i h1 hlt => hall i h1 (by omega))
    rw [hskip]
    have e1 : 1 + (max_retries - 1) = max_retries := by omega
    have e2 : 0 + (max_retries - 1) = max_retries - 1 := by omega
    rw [e1, e2]
    exact request_loop_done oracle max_retries max_retries (max_retries - 1)
      r le_rfl hr (Or.inr (Or.inr rfl))
  · intro nm sp oracle m a fs c s tr hlt ho
    exact download_loop_conn_retry nm sp oracle m a fs c s tr hlt ho
  · intro nm sp oracle m a fs c s tr st cl chunks intr hlt ho hst
    exact download_loop_status_retry nm sp oracle m a fs c s tr st cl chunks
      intr hlt ho hst
  · intro nm sp oracle m fs hm hall
    cases hok : (download_loop nm sp oracle m 1 fs 0 0 []).ok
    · rfl
    · obtain ⟨i, st, cl, chunks, hi1, hi2, hor, hr1, hr2, hfi, hsz, hfp⟩ :=
        (download_loop_master nm sp oracle m 1 fs 0 0 []).2.2.1 hok hm
      rcases hall i hi1 hi2 with hc | ⟨st2, cl2, chunks2, intr2, hc, hret⟩
      · rw [hor] at hc
        simp at hc
      · rw [hor] at hc
        simp only [DlAttempt.resp.injEq] at hc
        obtain ⟨he, _, _, _⟩ := hc
        rw [← he] at hret
        rw [hret] at hr1
        simp at hr1

/-- Concrete instance of the C7 amended theorem: a 503 on attempt 1 of 5 in
the download loop sleeps and moves to attempt 2. -/
theorem transient_retry_policy_witness :
    download_loop "w2" none
        (fun _ => DlAttempt.resp 503 none [] none) 5 1 (fun _ => none) 0 0 []
      = download_loop "w2" none
          (fun _ => DlAttempt.resp 503 none [] none) 5 2 (fun _ => none)
          1 1 [] :=
  transient_retry_policy.2.2.2.1 "w2" none
    (fun _ => DlAttempt.resp 503 none [] none) 5 1 (fun _ => none) 0 0 []
    503 none [] none (by norm_num) rfl (by decide)

/-! ### C3 : idempotent resume -/

theorem FKey.ne_part {k : FKey} {s : String} (h : FKey.nm k ≠ s) :
    k ≠ FKey.part s := by
  intro hc
  subst hc
  exact h rfl

theorem FKey.ne_inprog {k : FKey} {s : String} (h : FKey.nm k ≠ s) :
    k ≠ FKey.inprog s := by
  intro hc
  subst hc
  exact h rfl

theorem FKey.ne_completed {k : FKey} {s : String} (h : FKey.nm k ≠ s) :
    k ≠ FKey.completed s := by
  intro hc
  subst hc
  exact h rfl

theorem download_job_noinprog (t : DlTask) (m : ℕ) (fs : FS)
    (hskip : skip_check t fs = false)
    (hok : (download_loop t.nm t.sizeParam t.oracle m 1 fs 0 0 []).ok = true)
    (hin : (download_loop t.nm t.sizeParam t.oracle m 1 fs 0 0 []).fs
      (.inprog t.nm) = none) :
    download_job t m fs =
      ⟨(download_loop t.nm t.sizeParam t.oracle m 1 fs 0 0 []).fs, false,
        (download_loop t.nm t.sizeParam t.oracle m 1 fs 0 0 []).calls,
        (download_loop t.nm t.sizeParam t.oracle m 1 fs 0 0 []).sleeps,
        (download_loop t.nm t.sizeParam t.oracle m 1 fs 0 0 []).trace⟩ := by
  unfold download_job
  rw [if_neg (by simp [hskip])]
  simp only [hok, if_true, hin]

/-- A job touches only the three paths of its own basename. -/
theorem download_job_frame (t : DlTask) (m : ℕ) (fs : FS) :
    ∀ k, FKey.nm k ≠ t.nm → (download_job t m fs).fs k = fs k := by
  intro k hk
  obtain ⟨m1, m2, m3, m4⟩ :=
    download_loop_master t.nm t.sizeParam t.oracle m 1 fs 0 0 []
  by_cases hskip : skip_check t fs = true
  · rw [download_job_skip t m fs hskip]
  · rw [Bool.not_eq_true] at hskip
    cases hok : (download_loop t.nm t.sizeParam t.oracle m 1 fs 0 0 []).ok
    · rw [download_job_fail t m fs hskip hok]
      exact m1 k (FKey.ne_part hk) (FKey.ne_inprog hk)
    · cases hin : (download_loop t.nm t.sizeParam t.oracle m 1 fs 0 0 []).fs
        (.inprog t.nm) with
      | none =>
        rw [download_job_noinprog t m fs hskip hok hin]
        exact m1 k (FKey.ne_part hk) (FKey.ne_inprog hk)
      | some cb =>
        rw [download_job_succ t m fs cb hskip hok hin]
        show (((download_loop t.nm t.sizeParam t.oracle m 1 fs 0 0 []).fs.wr
          (.inprog t.nm) none).wr (.completed t.nm) (some cb)) k = fs k
        rw [FS.wr_other _ (FKey.completed t.nm) k _ (FKey.ne_completed hk)]
        rw [FS.wr_other _ (FKey.inprog t.nm) k _ (FKey.ne_inprog hk)]
        exact m1 k (FKey.ne_part hk) (FKey.ne_inprog hk)

/-- A job's network-call count and its effect on its own three paths depend
on the starting filesystem only through those three paths. -/
theorem download_job_congr (t : DlTask) (m : ℕ) (fs g : FS) (hm : 1 ≤ m)
    (h : ∀ k, FKey.nm k = t.nm → fs k = g k) :
    (download_job t m fs).calls = (download_job t m g).calls ∧
    ∀ k, FKey.nm k = t.nm →
      (download_job t m fs).fs k = (download_job t m g).fs k := by
  have hsk : skip_check t fs = skip_check t g :=
    skip_check_congr t fs g (h (FKey.completed t.nm) rfl)
  by_cases hskip : skip_check t fs = true
  · have hskipg : skip_check t g = true := by rw [← hsk]; exact hskip
    rw [download_job_skip t m fs hskip, download_job_skip t m g hskipg]
    exact ⟨rfl, h⟩
  · rw [Bool.not_eq_true] at hskip
    have hskipg : skip_check t g = false := by rw [← hsk]; exact hskip
    obtain ⟨e1, e2, e3⟩ := download_loop_det t.nm t.sizeParam t.oracle m 1 fs
      0 0 [] g 0 0 []
    obtain ⟨mf1, mf2, mf3, mf4⟩ :=
      download_loop_master t.nm t.sizeParam t.oracle m 1 fs 0 0 []
    obtain ⟨mg1, mg2, mg3, mg4⟩ :=
      download_loop_master t.nm t.sizeParam t.oracle m 1 g 0 0 []
    cases hok : (download_loop t.nm t.sizeParam t.oracle m 1 fs 0 0 []).ok
      with
    | false =>
      have hokg : (download_loop t.nm t.sizeParam t.oracle m 1 g 0 0 []).ok
          = false := by rw [← e1]; exact hok
      rw [download_job_fail t m fs hskip hok,
        download_job_fail t m g hskipg hokg]
      constructor
      · show (download_loop t.nm t.sizeParam t.oracle m 1 fs 0 0 []).calls
          = (download_loop t.nm t.sizeParam t.oracle m 1 g 0 0 []).calls
        omega
      · intro k hk
        show (download_loop t.nm t.sizeParam t.oracle m 1 fs 0 0 []).fs k
          = (download_loop t.nm t.sizeParam t.oracle m 1 g 0 0 []).fs k
        cases k with
        | part s =>
          have hs : s = t.nm := hk
          subst hs
          rw [(mf4 hok).1, (mg4 hokg).1]
        | inprog s =>
          have hs : s = t.nm := hk
          subst hs
          rw [(mf4 hok).2, (mg4 hokg).2]
          exact h (FKey.inprog t.nm) rfl
        | completed s =>
          have hs : s = t.nm := hk
          subst hs
          rw [mf1 (FKey.completed t.nm) (by simp) (by simp),
            mg1 (FKey.completed t.nm) (by simp) (by simp)]
          exact h (FKey.completed t.nm) rfl
    | true =>
      have hokg : (download_loop t.nm t.sizeParam t.oracle m 1 g 0 0 []).ok
          = true := by rw [← e1]; exact hok
      obtain ⟨i, st, cl, chunks, hi1, hi2, hor, hr1, hr2, hfif, hszf, hfpf⟩ :=
        mf3 hok hm
      obtain ⟨i2, st2, cl2, chunks2, hi12, hi22, hor2, hr12, hr22, hfig,
        hszg, hfpg⟩ := mg3 hokg hm
      have hbb : (some chunks.flatten : Option Bytes) = some chunks2.flatten
          := by
        rw [← hfif, ← hfig]
        exact e3 hok hm
      rw [download_job_succ t m fs chunks.flatten hskip hok hfif,
        download_job_succ t m g chunks2.flatten hskipg hokg hfig]
      constructor
      · show (download_loop t.nm t.sizeParam t.oracle m 1 fs 0 0 []).calls
          = (download_loop t.nm t.sizeParam t.oracle m 1 g 0 0 []).calls
        omega
      · intro k hk
        show (((download_loop t.nm t.sizeParam t.oracle m 1 fs 0 0 []).fs.wr
            (.inprog t.nm) none).wr (.completed t.nm)
            (some chunks.flatten)) k
          = (((download_loop t.nm t.sizeParam t.oracle m 1 g 0 0 []).fs.wr
              (.inprog t.nm) none).wr (.completed t.nm)
              (some chunks2.flatten)) k
        cases k with
        | part s =>
          have hs : s = t.nm := hk
          subst hs
          rw [FS.wr_other _ (FKey.completed t.nm) (FKey.part t.nm) _
            (by simp), FS.wr_other _ (FKey.inprog t.nm) (FKey.part t.nm) _
            (by simp), FS.wr_other _ (FKey.completed t.nm) (FKey.part t.nm) _
            (by simp), FS.wr_other _ (FKey.inprog t.nm) (FKey.part t.nm) _
            (by simp), hfpf, hfpg]
        | inprog s =>
          have hs : s = t.nm := hk
          subst hs
          rw [FS.wr_other _ (FKey.completed t.nm) (FKey.inprog t.nm) _
            (by simp), FS.wr_other _ (FKey.completed t.nm) (FKey.inprog t.nm)
            _ (by simp), FS.wr_same, FS.wr_same]
        | completed s =>
          have hs : s = t.nm := hk
          subst hs
          rw [FS.wr_same, FS.wr_same]
          exact hbb

/-- Re-running a job over its own result leaves the completed path's contents
unchanged. -/
theorem download_job_idem (t : DlTask) (m : ℕ) (fs : FS) (hm : 1 ≤ m) :
    (download_job t m (download_job t m fs).fs).fs (.completed t.nm)
      = (download_job t m fs).fs (.completed t.nm) := by
  obtain ⟨mf1, mf2, mf3, mf4⟩ :=
    download_loop_master t.nm t.sizeParam t.oracle m 1 fs 0 0 []
  by_cases hskip : skip_check t fs = true
  · have hj1 : (download_job t m fs).fs = fs := by
      rw [download_job_skip t m fs hskip]
    rw [hj1, hj1]
  · rw [Bool.not_eq_true] at hskip
    cases hok : (download_loop t.nm t.sizeParam t.oracle m 1 fs 0 0 []).ok
      with
    | false =>
      have hj1 : (download_job t m fs).fs
          = (download_loop t.nm t.sizeParam t.oracle m 1 fs 0 0 []).fs := by
        rw [download_job_fail t m fs hskip hok]
      rw [hj1]
      have hLc : (download_loop t.nm t.sizeParam t.oracle m 1 fs 0 0 []).fs
          (.completed t.nm) = fs (.completed t.nm) :=
        mf1 (FKey.completed t.nm) (by simp) (by simp)
      have hskip2 : skip_check t
          (download_loop t.nm t.sizeParam t.oracle m 1 fs 0 0 []).fs
          = false := by
        rw [skip_check_congr t _ fs hLc]
        exact hskip
      obtain ⟨e1, e2, e3⟩ := download_loop_det t.nm t.sizeParam t.oracle m 1
        (download_loop t.nm t.sizeParam t.oracle m 1 fs 0 0 []).fs 0 0 [] fs
        0 0 []
      have hok2 : (download_loop t.nm t.sizeParam t.oracle m 1
          (download_loop t.nm t.sizeParam t.oracle m 1 fs 0 0 []).fs 0 0
          []).ok = false := by rw [e1]; exact hok
      have hj2 : (download_job t m
          (download_loop t.nm t.sizeParam t.oracle m 1 fs 0 0 []).fs).fs
          = (download_loop t.nm t.sizeParam t.oracle m 1
              (download_loop t.nm t.sizeParam t.oracle m 1 fs 0 0 []).fs 0 0
              []).fs := by
        rw [download_job_fail t m _ hskip2 hok2]
      rw [hj2]
      obtain ⟨mm1, mm2, mm3, mm4⟩ := download_loop_master t.nm t.sizeParam
        t.oracle m 1
        (download_loop t.nm t.sizeParam t.oracle m 1 fs 0 0 []).fs 0 0 []
      exact mm1 (FKey.completed t.nm) (by simp) (by simp)
    | true =>
      obtain ⟨i, st, cl, chunks, hi1, hi2, hor, hr1, hr2, hfi, hsz, hfp⟩ :=
        mf3 hok hm
      have hj1 : (download_job t m fs).fs
          = (((download_loop t.nm t.sizeParam t.oracle m 1 fs 0 0 []).fs.wr
              (.inprog t.nm) none).wr (.completed t.nm)
              (some chunks.flatten)) := by
        rw [download_job_succ t m fs chunks.flatten hskip hok hfi]
      rw [hj1]
      have hcomp : (((download_loop t.nm t.sizeParam t.oracle m 1 fs 0 0
          []).fs.wr (.inprog t.nm) none).wr (.completed t.nm)
          (some chunks.flatten)) (.completed t.nm) = some chunks.flatten :=
        FS.wr_same _ _ _
      by_cases hskip2 : skip_check t
          (((download_loop t.nm t.sizeParam t.oracle m 1 fs 0 0 []).fs.wr
            (.inprog t.nm) none).wr (.completed t.nm)
            (some chunks.flatten)) = true
      · have hj2 : (download_job t m
            (((download_loop t.nm t.sizeParam t.oracle m 1 fs 0 0 []).fs.wr
              (.inprog t.nm) none).wr (.completed t.nm)
              (some chunks.flatten))).fs
            = (((download_loop t.nm t.sizeParam t.oracle m 1 fs 0 0 []).fs.wr
                (.inprog t.nm) none).wr (.completed t.nm)
                (some chunks.flatten)) := by
          rw [download_job_skip t m _ hskip2]
        rw [hj2]
      · rw [Bool.not_eq_true] at hskip2
        obtain ⟨e1, e2, e3⟩ := download_loop_det t.nm t.sizeParam t.oracle m
          1 (((download_loop t.nm t.sizeParam t.oracle m 1 fs 0 0 []).fs.wr
            (.inprog t.nm) none).wr (.completed t.nm) (some chunks.flatten))
          0 0 [] fs 0 0 []
        have hok2 : (download_loop t.nm t.sizeParam t.oracle m 1
            (((download_loop t.nm t.sizeParam t.oracle m 1 fs 0 0 []).fs.wr
              (.inprog t.nm) none).wr (.completed t.nm)
              (some chunks.flatten)) 0 0 []).ok = true := by
          rw [e1]; exact hok
        have hin2 : (download_loop t.nm t.sizeParam t.oracle m 1
            (((download_loop t.nm t.sizeParam t.oracle m 1 fs 0 0 []).fs.wr
              (.inprog t.nm) none).wr (.completed t.nm)
              (some chunks.flatten)) 0 0 []).fs (.inprog t.nm)
            = some chunks.flatten := by
          rw [e3 hok2 hm]
          exact hfi
        have hj2 : (download_job t m
            (((download_loop t.nm t.sizeParam t.oracle m 1 fs 0 0 []).fs.wr
              (.inprog t.nm) none).wr (.completed t.nm)
              (some chunks.flatten))).fs
            = (((download_loop t.nm t.sizeParam t.oracle m 1
                  (((download_loop t.nm t.sizeParam t.oracle m 1 fs 0 0
                    []).fs.wr (.inprog t.nm) none).wr (.completed t.nm)
                    (some chunks.flatten)) 0 0 []).fs.wr
                (.inprog t.nm) none).wr (.completed t.nm)
                (some chunks.flatten)) := by
          rw [download_job_succ t m _ chunks.flatten hskip2 hok2 hin2]
        rw [hj2]
        exact (FS.wr_same _ _ _).trans hcomp.symm

/-- The batch touches no path whose basename belongs to none of its tasks. -/
theorem download_items_frame (ts : List DlTask) (m : ℕ) :
    ∀ (fs : FS) (k : FKey), FKey.nm k ∉ ts.map DlTask.nm →
      (download_items ts m fs).1 k = fs k := by
  induction ts with
  | nil => intro fs k _; rfl
  | cons t rest ih =>
    intro fs k hk
    simp only [List.map_cons, List.mem_cons, not_or] at hk
    show (download_items rest m (download_job t m fs).fs).1 k = fs k
    rw [ih (download_job t m fs).fs k hk.2]
    exact download_job_frame t m fs k hk.1

theorem download_items_calls_length (ts : List DlTask) (m : ℕ) :
    ∀ fs : FS, (download_items ts m fs).2.length = ts.length := by
  induction ts with
  | nil => intro fs; rfl
  | cons t rest ih =>
    intro fs
    show ((download_job t m fs).calls
      :: (download_items rest m (download_job t m fs).fs).2).length
      = rest.length + 1
    rw [List.length_cons, ih]

/-- With pairwise-distinct basenames, each task of the batch behaves, on its
own three paths and in its network-call count, exactly as if it ran alone
from the batch's starting filesystem. -/
theorem download_items_per_task (ts : List DlTask) (m : ℕ) (hm : 1 ≤ m) :
    ∀ (fs : FS), (ts.map DlTask.nm).Nodup →
    ∀ (i : ℕ) (hi : i < ts.length),
      (∀ k, FKey.nm k = (ts.get ⟨i, hi⟩).nm →
        (download_items ts m fs).1 k
          = (download_job (ts.get ⟨i, hi⟩) m fs).fs k) ∧
      (download_items ts m fs).2[i]?
        = some (download_job (ts.get ⟨i, hi⟩) m fs).calls := by
  induction ts with
  | nil =>
    intro fs _ i hi
    simp at hi
  | cons t rest ih =>
    intro fs hnd i hi
    simp only [List.map_cons, List.nodup_cons] at hnd
    cases i with
    | zero =>
      constructor
      · intro k hk
        have hk2 : FKey.nm k = t.nm := hk
        show (download_items rest m (download_job t m fs).fs).1 k
          = (download_job t m fs).fs k
        refine download_items_frame rest m (download_job t m fs).fs k ?_
        rw [hk2]
        exact hnd.1
      · show ((download_job t m fs).calls
          :: (download_items rest m (download_job t m fs).fs).2)[0]?
          = some (download_job t m fs).calls
        exact List.getElem?_cons_zero
    | succ j =>
      have hj : j < rest.length := by simpa using hi
      obtain ⟨ihfs, ihc⟩ := ih (download_job t m fs).fs hnd.2 j hj
      have hneq : (rest.get ⟨j, hj⟩).nm ≠ t.nm := by
        intro hc
        apply hnd.1
        rw [← hc]
        exact List.mem_map.mpr ⟨rest.get ⟨j, hj⟩, List.get_mem rest j hj,
          rfl⟩
      have hcong := download_job_congr (rest.get ⟨j, hj⟩) m
        (download_job t m fs).fs fs hm
        (fun k hk => download_job_frame t m fs k (by rw [hk]; exact hneq))
      have htj : (t :: rest).get ⟨j + 1, hi⟩ = rest.get ⟨j, hj⟩ := rfl
      constructor
      · intro k hk
        rw [htj] at hk
        show (download_items rest m (download_job t m fs).fs).1 k
          = (download_job ((t :: rest).get ⟨j + 1, hi⟩) m fs).fs k
        rw [htj, ihfs k hk]
        exact hcong.2 k hk
      · show ((download_job t m fs).calls
          :: (download_items rest m (download_job t m fs).fs).2)[j + 1]?
          = some (download_job ((t :: rest).get ⟨j + 1, hi⟩) m fs).calls
        rw [List.getElem?_cons_succ, ihc, htj, hcong.1]

/-- C3: a ready item whose URL carries a `size` parameter and whose completed
file already has exactly that size is treated as already successful with zero
network calls; and for a batch over pairwise-distinct destination filenames
(the spec's resource model: each worker owns a disjoint filename), running
the batch a second time over its own output leaves every completed file's
contents identical, and every task whose expected size matches its existing
completed file performs zero network transfers in the second run. -/
theorem idempotent_resume (ts : List DlTask) (m : ℕ) (fs0 : FS)
    (hm : 1 ≤ m) (hnd : (ts.map DlTask.nm).Nodup) :
    (∀ (t : DlTask) (fs : FS) (n : ℕ) (b : Bytes), t.sizeParam = some n →
      fs (.completed t.nm) = some b → b.length = n →
      download_job t m fs = ⟨fs, true, 0, 0, []⟩) ∧
    (∀ nmS : String,
      (download_items ts m (download_items ts m fs0).1).1 (.completed nmS)
        = (download_items ts m fs0).1 (.completed nmS)) ∧
    (∀ (i : ℕ) (hi : i < ts.length),
      skip_check (ts.get ⟨i, hi⟩) (download_items ts m fs0).1 = true →
      (download_items ts m (download_items ts m fs0).1).2[i]? = some 0) := by
  refine ⟨?_, ?_, ?_⟩
  · intro t fs n b hsp hfc hlen
    exact download_job_skip t m fs (skip_check_of t fs n b hsp hfc hlen)
  · intro nmS
    by_cases hmem : nmS ∈ ts.map DlTask.nm
    · obtain ⟨t0, hmem0, hnm0⟩ := List.mem_map.mp hmem
      obtain ⟨⟨i, hi⟩, hget⟩ := List.mem_iff_get.mp hmem0
      have hti : (ts.get ⟨i, hi⟩).nm = nmS := by rw [hget, hnm0]
      have hknm : FKey.nm (FKey.completed nmS) = (ts.get ⟨i, hi⟩).nm :=
        hti.symm
      have hrun1 := (download_items_per_task ts m hm fs0 hnd i hi).1
      have hrun2 := (download_items_per_task ts m hm
        (download_items ts m fs0).1 hnd i hi).1 (FKey.completed nmS) hknm
      have hcong := download_job_congr (ts.get ⟨i, hi⟩) m
        (download_items ts m fs0).1 ((download_job (ts.get ⟨i, hi⟩) m
          fs0).fs) hm (fun k hk => hrun1 k hk)
      have hidem := download_job_idem (ts.get ⟨i, hi⟩) m fs0 hm
      rw [hrun2, hcong.2 (FKey.completed nmS) hknm]
      have hkey : (FKey.completed nmS)
          = FKey.completed (ts.get ⟨i, hi⟩).nm := by rw [hti]
      rw [hkey, hidem]
      rw [← hkey, hrun1 (FKey.completed nmS) hknm]
    · rw [download_items_frame ts m (download_items ts m fs0).1
        (FKey.completed nmS) hmem,
        download_items_frame ts m fs0 (FKey.completed nmS) hmem]
  · intro i hi hskipi
    rw [(download_items_per_task ts m hm (download_items ts m fs0).1 hnd i
      hi).2, download_job_skip (ts.get ⟨i, hi⟩) m
      (download_items ts m fs0).1 hskipi]

/-- The filesystem used by the C3 witness: the completed file for `a.zip`
already holds two bytes. -/
def fsC3 : FS := fun k =>
  if k = FKey.completed "a.zip" then some [1, 2] else none

/-- Concrete instance of the C3 theorem: a task with `?size=2` whose
completed file already has 2 bytes is skipped with zero network calls. -/
theorem idempotent_resume_witness :
    download_job ⟨"a.zip", some 2, fun _ => DlAttempt.connError⟩ 5 fsC3
      = ⟨fsC3, true, 0, 0, []⟩ :=
  (idempotent_resume [] 5 (fun _ => none) (by norm_num) (by simp)).1
    ⟨"a.zip", some 2, fun _ => DlAttempt.connError⟩ fsC3 2 [1, 2] rfl
    (by simp [fsC3]) rfl

end EodmsDds